import Mathlib

/-!
# fabric-operator utilities: a shallow embedding of `pkg/apis/fabric/utils.go`

The Go file defines four helpers of the fabric operator:

* `GetDefault`              : a run-time type switch choosing between a value and a fallback;
* `CheckAndCreateConfigMap` : double-checked "ensure the toolset config map exists";
* `GetNodeIPaddress`        : collect the external addresses of all cluster nodes;
* `GetObjectFromTemplate`   : read a template file and hand it to the universal decoder.

Each Go function is rendered as a Lean function of the same name.  Everything the
Go code reaches through an interface or a library (the controller-runtime client,
the file system, `filepath.Walk`, the deserializer) is a parameter of the embedding.
-/

namespace Fabric

/-! ## Go values stored in an `interface{}` -/

/-- The dynamic content of a Go `interface{}`: the dynamic type is the constructor,
the dynamic value its argument.  Floating point values are kept as their IEEE-754
bit patterns (`float32`: 32 bits, `float64`: 64 bits).  `other` stands for every
dynamic type that `GetDefault` does not name (bool, structs, pointers, ...). -/
inductive GoValue where
  | nil
  | string (s : String)
  | int (n : Int)
  | int8 (n : Int)
  | int16 (n : Int)
  | int32 (n : Int)
  | int64 (n : Int)
  | uint (n : Nat)
  | uint8 (n : Nat)
  | uint16 (n : Nat)
  | uint32 (n : Nat)
  | uint64 (n : Nat)
  | float32 (bits : Nat)
  | float64 (bits : Nat)
  | other (typeName : String) (repr : String)
  deriving DecidableEq, Repr

/-- IEEE-754 single precision: the bit pattern is a NaN. -/
def isNaN32 (bits : Nat) : Bool :=
  (bits / 2 ^ 23) % 2 ^ 8 == 2 ^ 8 - 1 && bits % 2 ^ 23 != 0

/-- IEEE-754 double precision: the bit pattern is a NaN. -/
def isNaN64 (bits : Nat) : Bool :=
  (bits / 2 ^ 52) % 2 ^ 11 == 2 ^ 11 - 1 && bits % 2 ^ 52 != 0

/-- IEEE-754 single precision: the bit pattern is `+0` or `-0`. -/
def isZero32 (bits : Nat) : Bool := bits % 2 ^ 31 == 0

/-- IEEE-754 double precision: the bit pattern is `+0` or `-0`. -/
def isZero64 (bits : Nat) : Bool := bits % 2 ^ 63 == 0

/-- Go's `==` on two interface values: true exactly when the dynamic types are
identical and the dynamic values are equal (floats compare as IEEE numbers). -/
def ifaceEq : GoValue → GoValue → Bool
  | .nil, .nil => true
  | .string a, .string b => a == b
  | .int a, .int b => a == b
  | .int8 a, .int8 b => a == b
  | .int16 a, .int16 b => a == b
  | .int32 a, .int32 b => a == b
  | .int64 a, .int64 b => a == b
  | .uint a, .uint b => a == b
  | .uint8 a, .uint8 b => a == b
  | .uint16 a, .uint16 b => a == b
  | .uint32 a, .uint32 b => a == b
  | .uint64 a, .uint64 b => a == b
  | .float32 a, .float32 b => !isNaN32 a && !isNaN32 b && (a == b || (isZero32 a && isZero32 b))
  | .float64 a, .float64 b => !isNaN64 a && !isNaN64 b && (a == b || (isZero64 a && isZero64 b))
  | .other s a, .other t b => s == t && a == b
  | _, _ => false

/-- The untyped constant `""` converted to `interface{}`: a `string`. -/
def emptyStringConst : GoValue := .string ""

/-- The untyped constant `0` converted to `interface{}`: its default type is `int`. -/
def zeroConst : GoValue := .int 0

/-- Go function `GetDefault(p, v)` of utils.go: a type switch on the dynamic type of `p`.
In the numeric case `p` is still the interface value, and `p == 0` compares it
with the constant `0` converted to `interface{}`. -/
def GetDefault (p v : GoValue) : GoValue :=
  match p with
  | .string _ => if ifaceEq p emptyStringConst then v else p
  | .int _ | .int8 _ | .int16 _ | .int32 _ | .int64 _
  | .uint _ | .uint8 _ | .uint16 _ | .uint32 _ | .uint64 _
  | .float32 _ | .float64 _ => if ifaceEq p zeroConst then v else p
  | .nil => v
  | .other _ _ => p

/-- The dynamic type is one of the twelve numeric types of the type switch. -/
def isNumber : GoValue → Bool
  | .int _ | .int8 _ | .int16 _ | .int32 _ | .int64 _
  | .uint _ | .uint8 _ | .uint16 _ | .uint32 _ | .uint64 _
  | .float32 _ | .float64 _ => true
  | _ => false

/-- The dynamic type is `string`. -/
def isString : GoValue → Bool
  | .string _ => true
  | _ => false

/-- Reference notion of "zero value" in the words of the specification: the empty
string for strings, numeric zero for every integer and floating point type, and
the absent value. -/
def isZeroValue : GoValue → Bool
  | .nil => true
  | .string s => s == ""
  | .int n | .int8 n | .int16 n | .int32 n | .int64 n => n == 0
  | .uint n | .uint8 n | .uint16 n | .uint32 n | .uint64 n => n == 0
  | .float32 b => isZero32 b
  | .float64 b => isZero64 b
  | .other _ _ => false

/-- Reference definition of the default resolver in the words of the
specification: the fallback when `provided` is the zero value, `provided` otherwise. -/
def resolveSpec (provided fallback : GoValue) : GoValue :=
  if isZeroValue provided then fallback else provided

/-- The provided values on which the resolver claim C6 speaks: strings, the absent
value, and non-zero numbers. -/
def stringNilOrNonZeroNumber (p : GoValue) : Bool :=
  isString p || p == .nil || (isNumber p && !isZeroValue p)

/-! ## Kubernetes objects and the controller-runtime client -/

/-- The value of `types.NamespacedName`. -/
structure NamespacedName where
  Namespace : String
  Name : String
  deriving DecidableEq, Repr

/-- The value of `reconcile.Request`: the namespaced name of the reconciled object. -/
structure Request where
  Namespace : String
  Name : String
  deriving DecidableEq, Repr

/-- A Go `map[string]string`, kept as an association list with distinct keys in
order of first insertion. -/
abbrev StringMap := List (String × String)

/-- Map lookup `m[k]` with presence flag. -/
def StringMap.get : StringMap → String → Option String
  | [], _ => none
  | (k', v') :: m, k => if k' = k then some v' else StringMap.get m k

/-- Map assignment `m[k] = v`: overwrite the entry of `k` or add a new one. -/
def StringMap.set : StringMap → String → String → StringMap
  | [], k, v => [(k, v)]
  | (k', v') :: m, k, v => if k' = k then (k, v) :: m else (k', v') :: StringMap.set m k v

/-- The fields of `corev1.ConfigMap` that utils.go touches. -/
structure ConfigMap where
  Namespace : String
  Name : String
  Data : StringMap
  deriving DecidableEq, Repr

/-- The store key of a config map. -/
def ConfigMap.key (cm : ConfigMap) : NamespacedName := ⟨cm.Namespace, cm.Name⟩

/-- One entry of `node.Status.Addresses`; `Typ` is the Go field `Type`
(`corev1.NodeAddressType`, a string type). -/
structure NodeAddress where
  Typ : String
  Address : String
  deriving DecidableEq, Repr

/-- The part of `corev1.Node` that utils.go reads: `node.Status.Addresses`. -/
structure Node where
  Name : String
  Addresses : List NodeAddress
  deriving DecidableEq, Repr

/-- The constant `corev1.NodeExternalIP`. -/
def NodeExternalIP : String := "ExternalIP"

/-- The reason carried by an API error, as far as utils.go distinguishes it. -/
inductive StatusReason where
  | NotFound
  | AlreadyExists
  | Other
  deriving DecidableEq, Repr

/-- An error returned by the client. -/
structure StoreError where
  reason : StatusReason
  message : String
  deriving DecidableEq, Repr

/-- The test `errors.IsNotFound(err)`. -/
def IsNotFound (err : StoreError) : Bool := err.reason == .NotFound

/-- The test `errors.IsAlreadyExists(err)`. -/
def IsAlreadyExists (err : StoreError) : Bool := err.reason == .AlreadyExists

/-- The methods of `client.Client` that utils.go calls, over a store state `σ`.
Each call returns its Go result together with the next store state; `none` is the
`nil` error.  The object fetched by `Get` is never read by utils.go, so only the
error is kept. -/
structure Client (σ : Type) where
  Get : NamespacedName → σ → Option StoreError × σ
  Create : ConfigMap → σ → Option StoreError × σ
  List : σ → Except StoreError (List Node) × σ

/-! ## The file system -/

/-- The value of `os.FileInfo`, as far as the walk callback reads it. -/
structure FileInfo where
  Name : String
  IsDir : Bool
  deriving DecidableEq, Repr

/-- One invocation of the `filepath.Walk` callback: the path, the file info
(`none` is the nil interface, passed when the entry could not be stat'ed) and the
error reported for the entry. -/
structure WalkEvent where
  path : String
  info : Option FileInfo
  err : Option String
  deriving DecidableEq, Repr

/-- The file system seen by utils.go: `Walk root` is the sequence of callback
invocations that `filepath.Walk(root, fn)` makes for a callback that always
returns nil (in lexical order, root first); `ReadFile path` is the content
returned by `ioutil.ReadFile`, `none` when it returns an error (and no bytes). -/
structure FileSystem where
  Walk : String → List WalkEvent
  ReadFile : String → Option String

/-- The root directory of the templates. -/
def TemplateRootDir : String := "/usr/local/bin/templates/"

/-- The root directory of the scripts. -/
def ScriptRoodDir : String := "/usr/local/bin/scripts"

/-- The name of the toolset config map. -/
def ToolSetName : String := "fabric-toolset"

/-! ## `GetObjectFromTemplate` -/

/-- The triple returned by the universal deserializer's `Decode`. -/
structure DecodeResult (Obj GVK Err : Type) where
  object : Option Obj
  kind : Option GVK
  err : Option Err

/-- Go function `GetObjectFromTemplate(templateName)` of utils.go.  The error of `ReadFile` is
dropped, which leaves `template` nil (no bytes) when the read fails; `decode` is
`scheme.Codecs.UniversalDeserializer().Decode` applied to `(template, nil, nil)`. -/
def GetObjectFromTemplate {Obj GVK Err : Type} (fs : FileSystem)
    (decode : String → DecodeResult Obj GVK Err) (templateName : String) :
    DecodeResult Obj GVK Err :=
  let template :=
    match fs.ReadFile (TemplateRootDir ++ templateName) with
    | some bytes => bytes
    | none => ""
  decode template

/-! ## `CheckAndCreateConfigMap` -/

/-- A run-time fault of the Go program. -/
inductive Fault where
  | nilDereference
  deriving DecidableEq, Repr

/-- The callback handed to `filepath.Walk`, on the map `configmap.Data`.
`info.IsDir()` is a method call on the interface value `info`: with a nil `info`
it is a nil dereference.  The callback ignores `err` and always returns nil. -/
def walkFn (fs : FileSystem) (data : StringMap) (ev : WalkEvent) : Except Fault StringMap :=
  match ev.info with
  | none => .error .nilDereference
  | some info =>
    if !info.IsDir then
      let dat := match fs.ReadFile ev.path with
        | some bytes => bytes
        | none => ""
      .ok (StringMap.set data info.Name dat)
    else
      .ok data

/-- Running the callback over the invocations of one walk, in order.  The callback
never returns an error, so the walk is only cut short by a fault. -/
def walkAll (fs : FileSystem) : List WalkEvent → StringMap → Except Fault StringMap
  | [], data => .ok data
  | ev :: rest, data =>
    match walkFn fs data ev with
    | .error f => .error f
    | .ok data' => walkAll fs rest data'

/-- How a call of a Go function ended: it returned its `error` result, or it
panicked. -/
inductive Outcome where
  | returned (err : Option StoreError)
  | panicked (fault : Fault)
  deriving DecidableEq, Repr

/-- A call made on the client, with the error it answered. -/
inductive Call where
  | get (key : NamespacedName) (err : Option StoreError)
  | create (obj : ConfigMap) (err : Option StoreError)
  deriving DecidableEq, Repr

/-- The call is a `Create`. -/
def Call.isCreate : Call → Bool
  | .create _ _ => true
  | .get _ _ => false

/-- The observable result of one call of `CheckAndCreateConfigMap`: how it ended,
the client calls it made in order, and the store state it left. -/
structure Exec (σ : Type) where
  outcome : Outcome
  calls : List Call
  state : σ

/-- Go function `CheckAndCreateConfigMap(client, request)` of utils.go, run by one caller from
store state `s`.  The mutex is free when a single caller runs, so `Lock` and the
deferred `Unlock` leave no trace here. -/
def CheckAndCreateConfigMap {σ : Type} (fs : FileSystem) (client : Client σ)
    (request : Request) (s : σ) : Exec σ :=
  let key : NamespacedName := { Name := ToolSetName, Namespace := request.Namespace }
  let r1 := client.Get key s
  match r1.1 with
  | none => ⟨.returned none, [.get key none], r1.2⟩
  | some e1 =>
    let r2 := client.Get key r1.2
    match r2.1 with
    | none => ⟨.returned none, [.get key (some e1), .get key none], r2.2⟩
    | some e2 =>
      if IsNotFound e2 then
        match walkAll fs (fs.Walk ScriptRoodDir) [] with
        | .error f => ⟨.panicked f, [.get key (some e1), .get key (some e2)], r2.2⟩
        | .ok data =>
          let configmap : ConfigMap :=
            { Namespace := request.Namespace, Name := ToolSetName, Data := data }
          let r3 := client.Create configmap r2.2
          match r3.1 with
          | none =>
            ⟨.returned none,
              [.get key (some e1), .get key (some e2), .create configmap none], r3.2⟩
          | some e3 =>
            if !IsAlreadyExists e3 then
              ⟨.returned (some e3),
                [.get key (some e1), .get key (some e2), .create configmap (some e3)], r3.2⟩
            else
              ⟨.returned none,
                [.get key (some e1), .get key (some e2), .create configmap (some e3)], r3.2⟩
      else
        ⟨.returned none, [.get key (some e1), .get key (some e2)], r2.2⟩

/-- Sequential calls: `n` calls of `CheckAndCreateConfigMap` one after the other,
each from the state the previous one left; a panic ends the process. -/
def callSequence {σ : Type} (fs : FileSystem) (client : Client σ) (request : Request) :
    Nat → σ → List (Exec σ)
  | 0, _ => []
  | n + 1, s =>
    let r := CheckAndCreateConfigMap fs client request s
    match r.outcome with
    | .panicked _ => [r]
    | .returned _ => r :: callSequence fs client request n r.state

/-! ## `GetNodeIPaddress` -/

/-- The inner loop of `GetNodeIPaddress`: append the external addresses of one node. -/
def appendExternal (addresses : List String) (node : Node) : List String :=
  node.Addresses.foldl
    (fun acc address => if address.Typ = NodeExternalIP then acc ++ [address.Address] else acc)
    addresses

/-- Go function `GetNodeIPaddress(c)` of utils.go: the pair `(addresses, err)` and the next
store state. -/
def GetNodeIPaddress {σ : Type} (c : Client σ) (s : σ) : (List String × Option StoreError) × σ :=
  let r := c.List s
  match r.1 with
  | .ok items => ((items.foldl appendExternal [], none), r.2)
  | .error err => (([], some err), r.2)

/-- Reference for node filtering: the addresses of the external entries, node by
node in listing order, each node's entries in their own order. -/
def externalAddresses (nodes : List Node) : List String :=
  (nodes.map fun node =>
    (node.Addresses.filter fun a => a.Typ = NodeExternalIP).map fun a => a.Address).flatten

/-! ## A faithful store -/

/-- The state of a store that keeps at most one config map per key. -/
structure Store where
  configMaps : List ConfigMap
  nodes : List Node
  keysDistinct : (configMaps.map ConfigMap.key).Nodup

/-- The store holds a config map with this key. -/
def Store.holds (s : Store) (key : NamespacedName) : Bool :=
  s.configMaps.any fun cm => cm.key = key

/-- The number of config maps the store holds under this key. -/
def Store.count (s : Store) (key : NamespacedName) : Nat :=
  (s.configMaps.filter fun cm => cm.key = key).length

/-- The error a faithful store answers to `Get` of a missing object. -/
def notFoundError (key : NamespacedName) : StoreError :=
  ⟨.NotFound, "configmaps " ++ key.Name ++ " not found"⟩

/-- The error a faithful store answers to `Create` of a present object. -/
def alreadyExistsError (key : NamespacedName) : StoreError :=
  ⟨.AlreadyExists, "configmaps " ++ key.Name ++ " already exists"⟩

/-- Method `Get` on a faithful store: success exactly when the key is present, NotFound
otherwise; the store is not changed. -/
def Store.Get (key : NamespacedName) (s : Store) : Option StoreError × Store :=
  if s.holds key then (none, s) else (some (notFoundError key), s)

/-- Method `Create` on a faithful store: insert exactly when the key is absent,
AlreadyExists otherwise. -/
def Store.Create (cm : ConfigMap) (s : Store) : Option StoreError × Store :=
  if h : s.holds cm.key then (some (alreadyExistsError cm.key), s)
  else
    (none,
      { configMaps := s.configMaps ++ [cm]
        nodes := s.nodes
        keysDistinct := by
          have hd := s.keysDistinct
          simp only [Store.holds, List.any_eq_true, decide_eq_true_eq, not_exists, not_and] at h
          rw [List.map_append, List.nodup_append]
          refine ⟨hd, by simp, ?_⟩
          intro a ha hb
          simp only [List.map_cons, List.map_nil, List.mem_singleton] at hb
          obtain ⟨x, hx, rfl⟩ := List.mem_map.mp ha
          exact h x hx hb })

/-- The client of a faithful store. -/
def storeClient : Client Store where
  Get := Store.Get
  Create := Store.Create
  List := fun s => (.ok s.nodes, s)

/-- Every invocation of the walk callback carries a file info: the script
directory and all its entries could be stat'ed. -/
def walkReadable (events : List WalkEvent) : Bool :=
  events.all fun ev => ev.info.isSome

/-- The non-directory files a walk reports, in walk order: base name and content
as read (empty when the read fails). -/
def walkedFiles (fs : FileSystem) (events : List WalkEvent) : List (String × String) :=
  events.filterMap fun ev =>
    match ev.info with
    | some info =>
      if info.IsDir then none
      else some (info.Name, (fs.ReadFile ev.path).getD "")
    | none => none

/-- The content of the last walked file with base name `k`, if any. -/
def lastContent (files : List (String × String)) (k : String) : Option String :=
  (files.reverse.find? fun f => f.1 = k).map fun f => f.2

/-- The map built by assigning the walked files in order, starting from `data`. -/
def buildData (files : List (String × String)) (data : StringMap) : StringMap :=
  files.foldl (fun m f => StringMap.set m f.1 f.2) data

/-- The number of `Create` calls in a recorded sequence. -/
def createCount (calls : List Call) : Nat := (calls.filter Call.isCreate).length

/-- Claim C4 as the specification words it: the entries are exactly the walked
non-directory files, one entry per file (in any order). -/
def oneEntryPerFile (fs : FileSystem) (cm : ConfigMap) : Prop :=
  cm.Data.Perm (walkedFiles fs (fs.Walk ScriptRoodDir))

/-! ## Concurrent callers

`CheckAndCreateConfigMap` run by `k` goroutines of one process against one faithful
store.  Each caller advances one statement of utils.go at a time; the client calls
and `mutex.Lock()` are the atomic steps, and a schedule picks the caller that moves
next. -/

/-- The key of the toolset config map of the request's namespace. -/
def toolsetKey (request : Request) : NamespacedName :=
  { Name := ToolSetName, Namespace := request.Namespace }

/-- Where a caller stands in `CheckAndCreateConfigMap`:
`firstGet` before the first `client.Get` (line 78);
`lock` before `mutex.Lock()` (line 82), the first check having failed;
`secondGet` before the second `client.Get` (line 84), holding the mutex;
`walk` before `filepath.Walk` (line 92), the second check having answered NotFound;
`create data` before `client.Create` (line 99) with the walked entries;
`unlock result` before the deferred `mutex.Unlock()`, the result being decided;
`done result` after the call ended. -/
inductive Caller where
  | firstGet
  | lock
  | secondGet
  | walk
  | create (data : StringMap)
  | unlock (result : Outcome)
  | done (result : Outcome)
  deriving DecidableEq, Repr

/-- The caller stands between `mutex.Lock()` and the deferred `mutex.Unlock()`. -/
def Caller.holdsMutex : Caller → Bool
  | .secondGet | .walk | .create _ | .unlock _ => true
  | .firstGet | .lock | .done _ => false

/-- The caller's call has ended. -/
def Caller.isDone : Caller → Bool
  | .done _ => true
  | _ => false

/-- The outcome is a panic. -/
def Outcome.isPanic : Outcome → Bool
  | .panicked _ => true
  | .returned _ => false

/-- The state of the process and the store: the store, the mutex (true when
locked), the callers by index, the number of `Create` calls the store answered
with nil, and whether an unrecovered panic has ended the process. -/
structure System where
  store : Store
  mutex : Bool
  callers : Nat → Caller
  created : Nat
  crashed : Bool

/-- One step of caller `i` among `k` callers.  Nothing moves once the process has
crashed; a caller at `mutex.Lock()` waits while the mutex is locked; a caller that
panics runs its deferred `Unlock` and then ends the process. -/
def step (fs : FileSystem) (request : Request) (k i : Nat) (sys : System) : System :=
  if sys.crashed || decide (k ≤ i) then sys
  else
    match sys.callers i with
    | .firstGet =>
      let r := storeClient.Get (toolsetKey request) sys.store
      match r.1 with
      | none =>
        { sys with store := r.2, callers := Function.update sys.callers i (.done (.returned none)) }
      | some _ =>
        { sys with store := r.2, callers := Function.update sys.callers i .lock }
    | .lock =>
      if sys.mutex then sys
      else { sys with mutex := true, callers := Function.update sys.callers i .secondGet }
    | .secondGet =>
      let r := storeClient.Get (toolsetKey request) sys.store
      match r.1 with
      | none =>
        { sys with store := r.2, callers := Function.update sys.callers i (.unlock (.returned none)) }
      | some e2 =>
        if IsNotFound e2 then
          { sys with store := r.2, callers := Function.update sys.callers i .walk }
        else
          { sys with
            store := r.2, callers := Function.update sys.callers i (.unlock (.returned none)) }
    | .walk =>
      match walkAll fs (fs.Walk ScriptRoodDir) [] with
      | .error f =>
        { sys with callers := Function.update sys.callers i (.unlock (.panicked f)) }
      | .ok data =>
        { sys with callers := Function.update sys.callers i (.create data) }
    | .create data =>
      let configmap : ConfigMap :=
        { Namespace := request.Namespace, Name := ToolSetName, Data := data }
      let r := storeClient.Create configmap sys.store
      match r.1 with
      | none =>
        { sys with
          store := r.2, created := sys.created + 1,
          callers := Function.update sys.callers i (.unlock (.returned none)) }
      | some e3 =>
        if !IsAlreadyExists e3 then
          { sys with
            store := r.2, callers := Function.update sys.callers i (.unlock (.returned (some e3))) }
        else
          { sys with
            store := r.2, callers := Function.update sys.callers i (.unlock (.returned none)) }
    | .unlock result =>
      { sys with
        mutex := false, crashed := result.isPanic,
        callers := Function.update sys.callers i (.done result) }
    | .done _ => sys

/-- Running a schedule: the callers named by the schedule step one after the other. -/
def runSchedule (fs : FileSystem) (request : Request) (k : Nat) :
    List Nat → System → System
  | [], sys => sys
  | i :: rest, sys => runSchedule fs request k rest (step fs request k i sys)

/-- The start: no caller has begun, the mutex is free, nothing was created. -/
def initialSystem (store : Store) : System :=
  ⟨store, false, fun _ => .firstGet, 0, false⟩

/-- Caller `i` can move: the process runs, the caller has not ended and does not
wait for a locked mutex. -/
def canStep (k i : Nat) (sys : System) : Bool :=
  !sys.crashed && decide (i < k) && !(sys.callers i).isDone &&
    !(sys.callers i == .lock && sys.mutex)

/-- The number of steps a caller has left at most. -/
def Caller.stepsLeft : Caller → Nat
  | .firstGet => 6
  | .lock => 5
  | .secondGet => 4
  | .walk => 3
  | .create _ => 2
  | .unlock _ => 1
  | .done _ => 0

/-- The invariant of the concurrent callers of one namespace on a store that
started without the toolset config map, with a readable script directory. -/
def ConvergenceInv (request : Request) (k : Nat) (sys : System) : Prop :=
  sys.crashed = false ∧
  (sys.mutex = true ↔ ∃ i, i < k ∧ (sys.callers i).holdsMutex = true) ∧
  (∀ i j, i < k → j < k → (sys.callers i).holdsMutex = true →
    (sys.callers j).holdsMutex = true → i = j) ∧
  ((sys.store.holds (toolsetKey request) = false ∧ sys.created = 0) ∨
    (sys.store.holds (toolsetKey request) = true ∧ sys.created = 1)) ∧
  (∀ i, i < k → (sys.callers i = .walk ∨ ∃ d, sys.callers i = .create d) →
    sys.store.holds (toolsetKey request) = false) ∧
  (∀ i res, i < k → (sys.callers i = .unlock res ∨ sys.callers i = .done res) →
    res = .returned none ∧ sys.store.holds (toolsetKey request) = true)

/-- The invariant of the concurrent callers when the walk faults: nothing is ever
created and a call can only end in the panic. -/
def FaultInv (request : Request) (sys : System) : Prop :=
  sys.store.holds (toolsetKey request) = false ∧
  sys.created = 0 ∧
  ∀ i, sys.callers i = .firstGet ∨ sys.callers i = .lock ∨ sys.callers i = .secondGet ∨
    sys.callers i = .walk ∨ sys.callers i = .unlock (.panicked .nilDereference) ∨
    sys.callers i = .done (.panicked .nilDereference)

/-! ## Concrete inputs -/

/-- A store without objects. -/
def Store.empty : Store := ⟨[], [], List.nodup_nil⟩

/-- A reconcile request in namespace `org1`. -/
def exampleRequest : Request := ⟨"org1", "fabric-ca"⟩

/-- The key of the toolset config map in namespace `org1`. -/
def exampleKey : NamespacedName := ⟨"org1", "fabric-toolset"⟩

/-- A file system without the script directory: `filepath.Walk` cannot stat the
root and invokes the callback once, with a nil file info and the error. -/
def missingScriptDir : FileSystem where
  Walk := fun root => [⟨root, none, some "lstat: no such file or directory"⟩]
  ReadFile := fun _ => none

/-- A script directory with a file `a` and an entry `b` that disappears before the
walk can stat it. -/
def vanishingEntry : FileSystem where
  Walk := fun root =>
    [⟨root, some ⟨"scripts", true⟩, none⟩,
     ⟨root ++ "/a", some ⟨"a", false⟩, none⟩,
     ⟨root ++ "/b", none, some "lstat: no such file or directory"⟩]
  ReadFile := fun path => if path = ScriptRoodDir ++ "/a" then some "x" else none

/-- The script directory of the specification's example: files `a` and `b` with
contents `x` and `y`, and a subdirectory `c`. -/
def exampleScripts : FileSystem where
  Walk := fun root =>
    [⟨root, some ⟨"scripts", true⟩, none⟩,
     ⟨root ++ "/a", some ⟨"a", false⟩, none⟩,
     ⟨root ++ "/b", some ⟨"b", false⟩, none⟩,
     ⟨root ++ "/c", some ⟨"c", true⟩, none⟩]
  ReadFile := fun path =>
    if path = ScriptRoodDir ++ "/a" then some "x"
    else if path = ScriptRoodDir ++ "/b" then some "y"
    else none

/-- A script directory with a file `a` and a subdirectory `c` that holds another
file `a`. -/
def collidingScripts : FileSystem where
  Walk := fun root =>
    [⟨root, some ⟨"scripts", true⟩, none⟩,
     ⟨root ++ "/a", some ⟨"a", false⟩, none⟩,
     ⟨root ++ "/c", some ⟨"c", true⟩, none⟩,
     ⟨root ++ "/c/a", some ⟨"a", false⟩, none⟩]
  ReadFile := fun path =>
    if path = ScriptRoodDir ++ "/a" then some "x"
    else if path = ScriptRoodDir ++ "/c/a" then some "y"
    else none

/-- A client whose reads answer NotFound and whose creates are rejected. -/
def rejectingClient : Client Unit where
  Get := fun key s => (some (notFoundError key), s)
  Create := fun _ s => (some ⟨.Other, "forbidden"⟩, s)
  List := fun s => (.error ⟨.Other, "forbidden"⟩, s)

/-- The config map built from the specification's example script directory for
namespace `org1`. -/
def exampleConfigMap : ConfigMap := ⟨"org1", "fabric-toolset", [("a", "x"), ("b", "y")]⟩

/-- A store without config maps whose node listing answers `nodes`. -/
def nodeStore (nodes : List Node) : Store := ⟨[], nodes, List.nodup_nil⟩

/-- A decoder that accepts exactly the payload `kind: Pod` and rejects all other
input, the empty input included. -/
def podDecoder (bytes : String) : DecodeResult String String String :=
  if bytes = "kind: Pod" then ⟨some "pod", some "v1/Pod", none⟩
  else ⟨none, none, some "couldn't get version/kind"⟩

/-- Two nodes with mixed address entries. -/
def exampleNodes : List Node :=
  [⟨"node1", [⟨"InternalIP", "10.0.0.1"⟩, ⟨"ExternalIP", "203.0.113.1"⟩, ⟨"Hostname", "node1"⟩]⟩,
   ⟨"node2", [⟨"ExternalIP", "203.0.113.2"⟩, ⟨"InternalIP", "10.0.0.2"⟩]⟩]

/-! ## Helper lemmas: string maps -/

theorem StringMap.get_set (m : StringMap) (k v k' : String) :
    StringMap.get (StringMap.set m k v) k' = if k = k' then some v else StringMap.get m k' := by
  induction m with
  | nil => simp [StringMap.set, StringMap.get]
  | cons hd tl ih =>
    obtain ⟨a, b⟩ := hd
    by_cases h : a = k
    · subst h
      by_cases h2 : a = k' <;> simp [StringMap.set, StringMap.get, h2]
    · by_cases h2 : a = k'
      · subst h2
        simp [StringMap.set, StringMap.get, h, Ne.symm h]
      · simp [StringMap.set, StringMap.get, h, h2, ih]

theorem StringMap.set_of_not_mem (m : StringMap) (k v : String)
    (h : k ∉ m.map Prod.fst) : StringMap.set m k v = m ++ [(k, v)] := by
  induction m with
  | nil => simp [StringMap.set]
  | cons hd tl ih =>
    obtain ⟨a, b⟩ := hd
    simp only [List.map_cons, List.mem_cons, not_or] at h
    have hne : ¬ a = k := fun e => h.1 e.symm
    simp [StringMap.set, hne, ih h.2]

theorem StringMap.mem_keys_set (m : StringMap) (k v k' : String) :
    k' ∈ (StringMap.set m k v).map Prod.fst ↔ k' = k ∨ k' ∈ m.map Prod.fst := by
  induction m with
  | nil => simp [StringMap.set]
  | cons hd tl ih =>
    obtain ⟨a, b⟩ := hd
    by_cases h : a = k
    · subst h
      simp [StringMap.set]
    · simp only [StringMap.set, h, if_false, List.map_cons, List.mem_cons, ih]
      tauto

theorem StringMap.nodup_keys_set (m : StringMap) (k v : String)
    (h : (m.map Prod.fst).Nodup) : ((StringMap.set m k v).map Prod.fst).Nodup := by
  induction m with
  | nil => simp [StringMap.set]
  | cons hd tl ih =>
    obtain ⟨a, b⟩ := hd
    simp only [List.map_cons, List.nodup_cons] at h
    by_cases hk : a = k
    · subst hk
      simpa [StringMap.set] using h
    · simp only [StringMap.set, hk, if_false, List.map_cons, List.nodup_cons]
      refine ⟨?_, ih h.2⟩
      rw [StringMap.mem_keys_set]
      rintro (e | e)
      · exact hk e
      · exact h.1 e

theorem lastContent_cons (f : String × String) (files : List (String × String)) (k : String) :
    lastContent (f :: files) k =
      match lastContent files k with
      | some v => some v
      | none => if f.1 = k then some f.2 else none := by
  unfold lastContent
  rw [List.reverse_cons, List.find?_append]
  cases h : List.find? (fun f => decide (f.1 = k)) files.reverse with
  | some x => simp
  | none => by_cases hk : f.1 = k <;> simp [List.find?, hk]

theorem buildData_get (files : List (String × String)) (data : StringMap) (k : String) :
    StringMap.get (buildData files data) k =
      match lastContent files k with
      | some v => some v
      | none => StringMap.get data k := by
  induction files generalizing data with
  | nil => simp [buildData, lastContent]
  | cons f tl ih =>
    have hstep : buildData (f :: tl) data = buildData tl (StringMap.set data f.1 f.2) := rfl
    rw [hstep, ih, lastContent_cons, StringMap.get_set]
    cases lastContent tl k with
    | some v => rfl
    | none => by_cases hk : f.1 = k <;> simp [hk]

theorem buildData_nodup_keys (files : List (String × String)) (data : StringMap)
    (h : (data.map Prod.fst).Nodup) : ((buildData files data).map Prod.fst).Nodup := by
  induction files generalizing data with
  | nil => simpa [buildData] using h
  | cons f tl ih => exact ih _ (StringMap.nodup_keys_set data f.1 f.2 h)

theorem buildData_mem_keys (files : List (String × String)) (data : StringMap) (k : String) :
    k ∈ (buildData files data).map Prod.fst ↔
      k ∈ data.map Prod.fst ∨ k ∈ files.map Prod.fst := by
  induction files generalizing data with
  | nil => simp [buildData]
  | cons f tl ih =>
    have hstep : buildData (f :: tl) data = buildData tl (StringMap.set data f.1 f.2) := rfl
    rw [hstep, ih, StringMap.mem_keys_set]
    simp only [List.map_cons, List.mem_cons]
    tauto

theorem buildData_of_distinct (files : List (String × String)) (data : StringMap)
    (hf : (files.map Prod.fst).Nodup)
    (hd : ∀ k, k ∈ files.map Prod.fst → k ∉ data.map Prod.fst) :
    buildData files data = data ++ files := by
  induction files generalizing data with
  | nil => simp [buildData]
  | cons f tl ih =>
    have hstep : buildData (f :: tl) data = buildData tl (StringMap.set data f.1 f.2) := rfl
    simp only [List.map_cons, List.nodup_cons] at hf
    have hnot : f.1 ∉ data.map Prod.fst := hd f.1 (by simp)
    rw [hstep, StringMap.set_of_not_mem data f.1 f.2 hnot, ih _ hf.2]
    · simp
    · intro k hk
      simp only [List.map_append, List.map_cons, List.map_nil, List.mem_append,
        List.mem_singleton, not_or]
      refine ⟨hd k (by simp [hk]), ?_⟩
      rintro rfl
      exact hf.1 hk

/-! ## Helper lemmas: the walk -/

theorem walkAll_of_readable (fs : FileSystem) (events : List WalkEvent) (data : StringMap)
    (h : walkReadable events = true) :
    walkAll fs events data = .ok (buildData (walkedFiles fs events) data) := by
  induction events generalizing data with
  | nil => rfl
  | cons ev tl ih =>
    simp only [walkReadable, List.all_cons, Bool.and_eq_true] at h
    obtain ⟨h1, h2⟩ := h
    obtain ⟨path, info, err⟩ := ev
    cases info with
    | none => simp at h1
    | some info =>
      have h2' : walkReadable tl = true := h2
      by_cases hdir : info.IsDir = true
      · simp [walkAll, walkFn, walkedFiles, hdir, ih _ h2']
      · simp only [Bool.not_eq_true] at hdir
        simp only [walkAll, walkFn, hdir, Bool.not_false, if_true, ih _ h2']
        congr 1
        simp only [walkedFiles, List.filterMap_cons, hdir, Bool.false_eq_true, if_false]
        cases hr : fs.ReadFile path <;> simp [buildData]

theorem walkAll_of_not_readable (fs : FileSystem) (events : List WalkEvent) (data : StringMap)
    (h : walkReadable events = false) :
    walkAll fs events data = .error .nilDereference := by
  induction events generalizing data with
  | nil => simp [walkReadable] at h
  | cons ev tl ih =>
    obtain ⟨path, info, err⟩ := ev
    cases info with
    | none => simp [walkAll, walkFn]
    | some info =>
      have h2 : walkReadable tl = false := by
        simpa [walkReadable] using h
      by_cases hdir : info.IsDir = true
      · simp [walkAll, walkFn, hdir, ih _ h2]
      · simp only [Bool.not_eq_true] at hdir
        simp [walkAll, walkFn, hdir, ih _ h2]

/-! ## Helper lemmas: the shape of a call -/

/-- Every call of `CheckAndCreateConfigMap` has one of seven shapes, decided by the
client's answers and by whether the walk reaches its end. -/
theorem CheckAndCreateConfigMap_shape {σ : Type} (fs : FileSystem) (client : Client σ)
    (request : Request) (s : σ) :
    let key : NamespacedName := ⟨request.Namespace, ToolSetName⟩
    let r1 := client.Get key s
    let r2 := client.Get key r1.2
    let cm : ConfigMap :=
      ⟨request.Namespace, ToolSetName,
        buildData (walkedFiles fs (fs.Walk ScriptRoodDir)) []⟩
    let r3 := client.Create cm r2.2
    let r := CheckAndCreateConfigMap fs client request s
    (r1.1 = none ∧ r = ⟨.returned none, [.get key none], r1.2⟩) ∨
    (∃ e1, r1.1 = some e1 ∧ r2.1 = none ∧
      r = ⟨.returned none, [.get key (some e1), .get key none], r2.2⟩) ∨
    (∃ e1 e2, r1.1 = some e1 ∧ r2.1 = some e2 ∧ IsNotFound e2 = false ∧
      r = ⟨.returned none, [.get key (some e1), .get key (some e2)], r2.2⟩) ∨
    (∃ e1 e2, r1.1 = some e1 ∧ r2.1 = some e2 ∧ IsNotFound e2 = true ∧
      walkReadable (fs.Walk ScriptRoodDir) = false ∧
      r = ⟨.panicked .nilDereference, [.get key (some e1), .get key (some e2)], r2.2⟩) ∨
    (∃ e1 e2, r1.1 = some e1 ∧ r2.1 = some e2 ∧ IsNotFound e2 = true ∧
      walkReadable (fs.Walk ScriptRoodDir) = true ∧ r3.1 = none ∧
      r = ⟨.returned none,
        [.get key (some e1), .get key (some e2), .create cm none], r3.2⟩) ∨
    (∃ e1 e2 e3, r1.1 = some e1 ∧ r2.1 = some e2 ∧ IsNotFound e2 = true ∧
      walkReadable (fs.Walk ScriptRoodDir) = true ∧ r3.1 = some e3 ∧
      IsAlreadyExists e3 = true ∧
      r = ⟨.returned none,
        [.get key (some e1), .get key (some e2), .create cm (some e3)], r3.2⟩) ∨
    (∃ e1 e2 e3, r1.1 = some e1 ∧ r2.1 = some e2 ∧ IsNotFound e2 = true ∧
      walkReadable (fs.Walk ScriptRoodDir) = true ∧ r3.1 = some e3 ∧
      IsAlreadyExists e3 = false ∧
      r = ⟨.returned (some e3),
        [.get key (some e1), .get key (some e2), .create cm (some e3)], r3.2⟩) := by
  intro key r1 r2 cm r3 r
  cases h1 : r1.1 with
  | none =>
    left
    refine ⟨rfl, ?_⟩
    simp only [r, CheckAndCreateConfigMap]
    simp only [r1, key] at h1
    simp [h1, key, r1]
  | some e1 =>
    right
    have h1' : (client.Get ⟨request.Namespace, ToolSetName⟩ s).1 = some e1 := h1
    cases h2 : r2.1 with
    | none =>
      left
      have h2' : (client.Get ⟨request.Namespace, ToolSetName⟩
          (client.Get ⟨request.Namespace, ToolSetName⟩ s).2).1 = none := h2
      refine ⟨e1, rfl, rfl, ?_⟩
      simp only [r, CheckAndCreateConfigMap]
      simp [h1', h2', key, r1, r2]
    | some e2 =>
      right
      have h2' : (client.Get ⟨request.Namespace, ToolSetName⟩
          (client.Get ⟨request.Namespace, ToolSetName⟩ s).2).1 = some e2 := h2
      cases hnf : IsNotFound e2 with
      | false =>
        left
        refine ⟨e1, e2, rfl, rfl, hnf, ?_⟩
        simp only [r, CheckAndCreateConfigMap]
        simp [h1', h2', hnf, key, r1, r2]
      | true =>
        right
        cases hw : walkReadable (fs.Walk ScriptRoodDir) with
        | false =>
          left
          refine ⟨e1, e2, rfl, rfl, hnf, rfl, ?_⟩
          simp only [r, CheckAndCreateConfigMap]
          simp [h1', h2', hnf, walkAll_of_not_readable fs _ [] hw, key, r1, r2]
        | true =>
          right
          have hwalk := walkAll_of_readable fs (fs.Walk ScriptRoodDir) [] hw
          cases h3 : r3.1 with
          | none =>
            left
            have h3' : (client.Create cm r2.2).1 = none := h3
            refine ⟨e1, e2, rfl, rfl, hnf, rfl, rfl, ?_⟩
            simp only [r, CheckAndCreateConfigMap]
            simp only [cm, r2, r1, key] at h3'
            simp [h1', h2', hnf, hwalk, h3', key, r1, r2, r3, cm]
          | some e3 =>
            right
            have h3' : (client.Create cm r2.2).1 = some e3 := h3
            simp only [cm, r2, r1, key] at h3'
            cases hae : IsAlreadyExists e3 with
            | true =>
              left
              refine ⟨e1, e2, e3, rfl, rfl, hnf, rfl, rfl, hae, ?_⟩
              simp only [r, CheckAndCreateConfigMap]
              simp [h1', h2', hnf, hwalk, h3', hae, key, r1, r2, r3, cm]
            | false =>
              right
              refine ⟨e1, e2, e3, rfl, rfl, hnf, rfl, rfl, hae, ?_⟩
              simp only [r, CheckAndCreateConfigMap]
              simp [h1', h2', hnf, hwalk, h3', hae, key, r1, r2, r3, cm]

/-- A call issues a `Create` exactly when both existence checks fail, the second
one with NotFound, and the walk of the script directory reaches its end; it never
issues more than one. -/
theorem create_issued_iff {σ : Type} (fs : FileSystem) (client : Client σ)
    (request : Request) (s : σ) :
    createCount (CheckAndCreateConfigMap fs client request s).calls ≤ 1 ∧
    (createCount (CheckAndCreateConfigMap fs client request s).calls = 1 ↔
      ∃ e1 e2,
        (client.Get ⟨request.Namespace, ToolSetName⟩ s).1 = some e1 ∧
        (client.Get ⟨request.Namespace, ToolSetName⟩
          (client.Get ⟨request.Namespace, ToolSetName⟩ s).2).1 = some e2 ∧
        IsNotFound e2 = true ∧ walkReadable (fs.Walk ScriptRoodDir) = true) := by
  have h := CheckAndCreateConfigMap_shape fs client request s
  dsimp only at h
  rcases h with ⟨h1, hr⟩ | ⟨e1, h1, h2, hr⟩ | ⟨e1, e2, h1, h2, hnf, hr⟩ |
    ⟨e1, e2, h1, h2, hnf, hw, hr⟩ | ⟨e1, e2, h1, h2, hnf, hw, h3, hr⟩ |
    ⟨e1, e2, e3, h1, h2, hnf, hw, h3, hae, hr⟩ | ⟨e1, e2, e3, h1, h2, hnf, hw, h3, hae, hr⟩ <;>
  simp_all [createCount, Call.isCreate]

/-! ## Helper lemmas: the faithful store -/

theorem Store.count_eq_one_of_holds (s : Store) (key : NamespacedName)
    (h : s.holds key = true) : s.count key = 1 := by
  have hd := s.keysDistinct
  simp only [Store.holds, List.any_eq_true, decide_eq_true_eq] at h
  obtain ⟨cm, hcm, hkey⟩ := h
  have hmem : key ∈ s.configMaps.map ConfigMap.key := List.mem_map.mpr ⟨cm, hcm, hkey⟩
  have hc : (s.configMaps.map ConfigMap.key).count key = 1 :=
    List.count_eq_one_of_mem hd hmem
  rw [List.count, List.countP_map, List.countP_eq_length_filter] at hc
  unfold Store.count
  rw [← hc]
  congr 1

theorem Store.holds_after_create (s : Store) (cm : ConfigMap)
    (h : s.holds cm.key = false) :
    (Store.Create cm s).1 = none ∧ (Store.Create cm s).2.holds cm.key = true := by
  have h' : ¬ (s.holds cm.key = true) := by simp [h]
  unfold Store.Create
  rw [dif_neg h']
  simp [Store.holds]

/-- On a store that holds the toolset config map, a call takes the fast path. -/
theorem call_on_present (fs : FileSystem) (request : Request) (s : Store)
    (h : s.holds ⟨request.Namespace, ToolSetName⟩ = true) :
    CheckAndCreateConfigMap fs storeClient request s =
      ⟨.returned none, [.get ⟨request.Namespace, ToolSetName⟩ none], s⟩ := by
  simp [CheckAndCreateConfigMap, storeClient, Store.Get, h]

/-- On a store that lacks the toolset config map, a call with a readable script
directory creates it. -/
theorem call_on_absent (fs : FileSystem) (request : Request) (s : Store)
    (h : s.holds ⟨request.Namespace, ToolSetName⟩ = false)
    (hw : walkReadable (fs.Walk ScriptRoodDir) = true) :
    (CheckAndCreateConfigMap fs storeClient request s).outcome = .returned none ∧
    (CheckAndCreateConfigMap fs storeClient request s).state.holds
      ⟨request.Namespace, ToolSetName⟩ = true ∧
    createCount (CheckAndCreateConfigMap fs storeClient request s).calls = 1 := by
  have hwalk := walkAll_of_readable fs (fs.Walk ScriptRoodDir) [] hw
  have hc := Store.holds_after_create s
    ⟨request.Namespace, ToolSetName, buildData (walkedFiles fs (fs.Walk ScriptRoodDir)) []⟩ h
  simp only [ConfigMap.key] at hc
  simp [CheckAndCreateConfigMap, storeClient, Store.Get, h, hwalk, IsNotFound, notFoundError,
    hc.1, hc.2, createCount, Call.isCreate]

theorem callSequence_on_present (fs : FileSystem) (request : Request) (s : Store) (n : Nat)
    (h : s.holds ⟨request.Namespace, ToolSetName⟩ = true) :
    callSequence fs storeClient request n s =
      List.replicate n ⟨.returned none, [.get ⟨request.Namespace, ToolSetName⟩ none], s⟩ := by
  induction n with
  | zero => rfl
  | succ k ih =>
    simp only [callSequence, call_on_present fs request s h, List.replicate_succ]
    rw [ih]

/-! ## Helper lemmas: node addresses -/

theorem appendExternal_eq (addresses : List String) (node : Node) :
    appendExternal addresses node =
      addresses ++
        (node.Addresses.filter fun a => a.Typ = NodeExternalIP).map fun a => a.Address := by
  unfold appendExternal
  generalize node.Addresses = l
  induction l generalizing addresses with
  | nil => simp
  | cons a tl ih =>
    by_cases h : a.Typ = NodeExternalIP
    · simp [List.foldl_cons, h, ih, List.filter_cons]
    · simp [List.foldl_cons, h, ih, List.filter_cons]

theorem foldl_appendExternal (nodes : List Node) (addresses : List String) :
    nodes.foldl appendExternal addresses = addresses ++ externalAddresses nodes := by
  induction nodes generalizing addresses with
  | nil => simp [externalAddresses]
  | cons n tl ih =>
    simp only [List.foldl_cons, ih, appendExternal_eq, externalAddresses, List.map_cons,
      List.flatten_cons, List.append_assoc]

theorem externalAddresses_cons (node : Node) (nodes : List Node) :
    externalAddresses (node :: nodes) =
      ((node.Addresses.filter fun a => a.Typ = NodeExternalIP).map fun a => a.Address) ++
        externalAddresses nodes := by
  simp [externalAddresses]

theorem mem_externalAddresses (nodes : List Node) (x : String) :
    x ∈ externalAddresses nodes ↔
      ∃ node ∈ nodes, ∃ a ∈ node.Addresses, a.Typ = NodeExternalIP ∧ a.Address = x := by
  induction nodes with
  | nil => simp [externalAddresses]
  | cons n tl ih =>
    rw [externalAddresses_cons, List.mem_append, ih]
    simp only [List.mem_map, List.mem_filter, decide_eq_true_eq, List.mem_cons]
    constructor
    · rintro (⟨a, ⟨ha, hty⟩, rfl⟩ | ⟨node, hnode, a, ha, hty, rfl⟩)
      · exact ⟨n, Or.inl rfl, a, ha, hty, rfl⟩
      · exact ⟨node, Or.inr hnode, a, ha, hty, rfl⟩
    · rintro ⟨node, rfl | hnode, a, ha, hty, rfl⟩
      · exact Or.inl ⟨a, ⟨ha, hty⟩, rfl⟩
      · exact Or.inr ⟨node, hnode, a, ha, hty, rfl⟩

theorem length_externalAddresses (nodes : List Node) :
    (externalAddresses nodes).length =
      (nodes.map fun node => node.Addresses.countP fun a => a.Typ = NodeExternalIP).sum := by
  induction nodes with
  | nil => simp [externalAddresses]
  | cons n tl ih =>
    rw [externalAddresses_cons, List.length_append, List.map_cons, List.sum_cons,
      List.length_map, List.countP_eq_length_filter, ih]

/-! ## Helper lemmas: concurrent callers -/

theorem Store.Get_snd (key : NamespacedName) (s : Store) : (Store.Get key s).2 = s := by
  unfold Store.Get
  split <;> rfl

theorem Store.Get_fst_of_holds (key : NamespacedName) (s : Store) (h : s.holds key = true) :
    (Store.Get key s).1 = none := by
  simp [Store.Get, h]

theorem Store.Get_fst_of_not_holds (key : NamespacedName) (s : Store)
    (h : s.holds key = false) : (Store.Get key s).1 = some (notFoundError key) := by
  simp [Store.Get, h]

theorem step_of_stopped (fs : FileSystem) (request : Request) (k i : Nat) (sys : System)
    (h : (sys.crashed || decide (k ≤ i)) = true) : step fs request k i sys = sys := by
  simp only [step, h, if_true]

/-- With a faulting walk, a step keeps the store without the config map and lets
calls end only in the panic. -/
theorem step_preserves_FaultInv (fs : FileSystem) (request : Request) (k i : Nat)
    (sys : System) (hw : walkReadable (fs.Walk ScriptRoodDir) = false)
    (h : FaultInv request sys) : FaultInv request (step fs request k i sys) := by
  obtain ⟨hstore, hcreated, hcallers⟩ := h
  by_cases hstop : (sys.crashed || decide (k ≤ i)) = true
  · rw [step_of_stopped fs request k i sys hstop]
    exact ⟨hstore, hcreated, hcallers⟩
  · have hwalk := walkAll_of_not_readable fs (fs.Walk ScriptRoodDir) [] hw
    have hget := Store.Get_fst_of_not_holds (toolsetKey request) sys.store hstore
    have hsnd := Store.Get_snd (toolsetKey request) sys.store
    have hnf : IsNotFound (notFoundError (toolsetKey request)) = true := rfl
    have key : ∀ c : Caller,
        (c = .firstGet ∨ c = .lock ∨ c = .secondGet ∨ c = .walk ∨
          c = .unlock (.panicked .nilDereference) ∨ c = .done (.panicked .nilDereference)) →
        ∀ j, Function.update sys.callers i c j = .firstGet ∨
          Function.update sys.callers i c j = .lock ∨
          Function.update sys.callers i c j = .secondGet ∨
          Function.update sys.callers i c j = .walk ∨
          Function.update sys.callers i c j = .unlock (.panicked .nilDereference) ∨
          Function.update sys.callers i c j = .done (.panicked .nilDereference) := by
      intro c hc j
      by_cases hj : j = i
      · subst hj
        simpa using hc
      · simpa [Function.update_noteq hj] using hcallers j
    rcases hcallers i with hc | hc | hc | hc | hc | hc
    · simp only [step, hstop, hc, storeClient, hget, hsnd]
      exact ⟨hstore, hcreated, key _ (by simp)⟩
    · by_cases hm : sys.mutex = true
      · simp only [step, hstop, hc, hm, if_true]
        exact ⟨hstore, hcreated, hcallers⟩
      · simp only [step, hstop, hc, hm]
        exact ⟨hstore, hcreated, key _ (by simp)⟩
    · simp only [step, hstop, hc, storeClient, hget, hsnd, hnf, if_true]
      exact ⟨hstore, hcreated, key _ (by simp)⟩
    · simp only [step, hstop, hc, hwalk]
      exact ⟨hstore, hcreated, key _ (by simp)⟩
    · simp only [step, hstop, hc]
      exact ⟨hstore, hcreated, key _ (by simp)⟩
    · simp only [step, hstop, hc]
      exact ⟨hstore, hcreated, hcallers⟩

theorem runSchedule_preserves_FaultInv (fs : FileSystem) (request : Request) (k : Nat)
    (schedule : List Nat) (sys : System) (hw : walkReadable (fs.Walk ScriptRoodDir) = false)
    (h : FaultInv request sys) : FaultInv request (runSchedule fs request k schedule sys) := by
  induction schedule generalizing sys with
  | nil => exact h
  | cons i rest ih => exact ih _ (step_preserves_FaultInv fs request k i sys hw h)

/-- A caller moves without touching the mutex or the store: the invariant is kept
when the new position agrees with what the store holds. -/
theorem ConvergenceInv_of_local_move (request : Request) (k i : Nat) (sys : System)
    (new : Caller) (h : ConvergenceInv request k sys)
    (hhold : new.holdsMutex = (sys.callers i).holdsMutex)
    (hwc : (new = .walk ∨ ∃ d, new = .create d) →
      sys.store.holds (toolsetKey request) = false)
    (hud : ∀ res, (new = .unlock res ∨ new = .done res) →
      res = .returned none ∧ sys.store.holds (toolsetKey request) = true) :
    ConvergenceInv request k { sys with callers := Function.update sys.callers i new } := by
  obtain ⟨h1, h2, h3, h4, h5, h6⟩ := h
  have hsame : ∀ j, (Function.update sys.callers i new j).holdsMutex =
      (sys.callers j).holdsMutex := by
    intro j
    by_cases hj : j = i
    · subst hj
      simp [hhold]
    · simp [Function.update_noteq hj]
  refine ⟨h1, ?_, ?_, h4, ?_, ?_⟩
  · simpa only [hsame] using h2
  · simpa only [hsame] using h3
  · intro j hj hc
    by_cases hji : j = i
    · subst hji
      simp only [Function.update_same] at hc
      exact hwc hc
    · simp only [Function.update_noteq hji] at hc
      exact h5 j hj hc
  · intro j res hj hc
    by_cases hji : j = i
    · subst hji
      simp only [Function.update_same] at hc
      exact hud res hc
    · simp only [Function.update_noteq hji] at hc
      exact h6 j res hj hc

/-- With a readable script directory, a step of any caller keeps the invariant. -/
theorem step_preserves_ConvergenceInv (fs : FileSystem) (request : Request) (k i : Nat)
    (sys : System) (hw : walkReadable (fs.Walk ScriptRoodDir) = true)
    (h : ConvergenceInv request k sys) : ConvergenceInv request k (step fs request k i sys) := by
  by_cases hstop : (sys.crashed || decide (k ≤ i)) = true
  · rw [step_of_stopped fs request k i sys hstop]
    exact h
  have hi : i < k := by
    simp only [Bool.or_eq_true, decide_eq_true_eq, not_or, not_le] at hstop
    exact hstop.2
  have hrun : (sys.crashed || decide (k ≤ i)) = false := by simpa using hstop
  have hsnd := Store.Get_snd (toolsetKey request) sys.store
  have hwalk := walkAll_of_readable fs (fs.Walk ScriptRoodDir) [] hw
  have hnf : IsNotFound (notFoundError (toolsetKey request)) = true := rfl
  obtain ⟨h1, h2, h3, h4, h5, h6⟩ := h
  have hinv : ConvergenceInv request k sys := ⟨h1, h2, h3, h4, h5, h6⟩
  cases hc : sys.callers i with
  | firstGet =>
    by_cases hh : sys.store.holds (toolsetKey request) = true
    · have hget := Store.Get_fst_of_holds (toolsetKey request) sys.store hh
      simp only [step, hrun, Bool.false_eq_true, if_false, hc, storeClient, hget, hsnd]
      exact ConvergenceInv_of_local_move request k i sys _ hinv (by rw [hc]; rfl)
        (by simp) (by simp [hh])
    · simp only [Bool.not_eq_true] at hh
      have hget := Store.Get_fst_of_not_holds (toolsetKey request) sys.store hh
      simp only [step, hrun, Bool.false_eq_true, if_false, hc, storeClient, hget, hsnd]
      exact ConvergenceInv_of_local_move request k i sys _ hinv (by rw [hc]; rfl)
        (by simp) (by simp)
  | lock =>
    by_cases hm : sys.mutex = true
    · simp only [step, hrun, Bool.false_eq_true, if_false, hc, hm, if_true]
      exact hinv
    · simp only [step, hrun, Bool.false_eq_true, if_false, hc, hm]
      have hnone : ∀ j, j < k → (sys.callers j).holdsMutex = false := by
        intro j hj
        cases hjh : (sys.callers j).holdsMutex with
        | false => rfl
        | true => exact absurd (h2.mpr ⟨j, hj, hjh⟩) hm
      have hupd : ∀ j, j < k →
          (Function.update sys.callers i Caller.secondGet j).holdsMutex = true → j = i := by
        intro j hj hjh
        by_cases hji : j = i
        · exact hji
        · rw [Function.update_noteq hji, hnone j hj] at hjh
          exact absurd hjh (by decide)
      refine ⟨h1, ?_, ?_, h4, ?_, ?_⟩
      · dsimp only
        simp only [true_iff]
        exact ⟨i, hi, by rw [Function.update_same]; rfl⟩
      · intro a b ha hb hah hbh
        dsimp only at hah hbh
        rw [hupd a ha hah, hupd b hb hbh]
      · intro j hj hcj
        dsimp only at hcj ⊢
        by_cases hji : j = i
        · rw [hji, Function.update_same] at hcj
          simp at hcj
        · rw [Function.update_noteq hji] at hcj
          exact h5 j hj hcj
      · intro j res hj hcj
        dsimp only at hcj ⊢
        by_cases hji : j = i
        · rw [hji, Function.update_same] at hcj
          simp at hcj
        · rw [Function.update_noteq hji] at hcj
          exact h6 j res hj hcj
  | secondGet =>
    by_cases hh : sys.store.holds (toolsetKey request) = true
    · have hget := Store.Get_fst_of_holds (toolsetKey request) sys.store hh
      simp only [step, hrun, Bool.false_eq_true, if_false, hc, storeClient, hget, hsnd]
      exact ConvergenceInv_of_local_move request k i sys _ hinv (by rw [hc]; rfl)
        (by simp) (by simp [hh])
    · simp only [Bool.not_eq_true] at hh
      have hget := Store.Get_fst_of_not_holds (toolsetKey request) sys.store hh
      simp only [step, hrun, Bool.false_eq_true, if_false, hc, storeClient, hget, hsnd, hnf,
        if_true]
      exact ConvergenceInv_of_local_move request k i sys _ hinv (by rw [hc]; rfl)
        (by simp [hh]) (by simp)
  | walk =>
    have hh : sys.store.holds (toolsetKey request) = false := h5 i hi (Or.inl hc)
    simp only [step, hrun, Bool.false_eq_true, if_false, hc, hwalk]
    exact ConvergenceInv_of_local_move request k i sys _ hinv (by rw [hc]; rfl)
      (by simp [hh]) (by simp)
  | create data =>
    have hh : sys.store.holds (toolsetKey request) = false := h5 i hi (Or.inr ⟨data, hc⟩)
    have hcreate := Store.holds_after_create sys.store
      ⟨request.Namespace, ToolSetName, data⟩ hh
    have hcreated : sys.created = 0 := by
      rcases h4 with ⟨_, hz⟩ | ⟨ht, _⟩
      · exact hz
      · rw [hh] at ht
        exact absurd ht (by decide)
    have hholder : (sys.callers i).holdsMutex = true := by rw [hc]; rfl
    simp only [step, hrun, Bool.false_eq_true, if_false, hc, storeClient, hcreate.1, hcreated]
    have hsame : ∀ j, (Function.update sys.callers i
        (Caller.unlock (Outcome.returned none)) j).holdsMutex = (sys.callers j).holdsMutex := by
      intro j
      by_cases hj : j = i
      · rw [hj, Function.update_same, hholder]
        rfl
      · rw [Function.update_noteq hj]
    refine ⟨h1, ?_, ?_, Or.inr ⟨hcreate.2, rfl⟩, ?_, ?_⟩
    · dsimp only
      simpa only [hsame] using h2
    · dsimp only
      simpa only [hsame] using h3
    · intro j hj hcj
      dsimp only at hcj ⊢
      by_cases hji : j = i
      · rw [hji, Function.update_same] at hcj
        simp at hcj
      · rw [Function.update_noteq hji] at hcj
        have hjh : (sys.callers j).holdsMutex = true := by
          rcases hcj with hcj | ⟨d, hcj⟩ <;> rw [hcj] <;> rfl
        exact absurd (h3 j i hj hi hjh hholder) hji
    · intro j res hj hcj
      dsimp only at hcj ⊢
      by_cases hji : j = i
      · rw [hji, Function.update_same] at hcj
        rcases hcj with hcj | hcj
        · simp only [Caller.unlock.injEq] at hcj
          exact ⟨hcj.symm, hcreate.2⟩
        · simp at hcj
      · rw [Function.update_noteq hji] at hcj
        exact ⟨(h6 j res hj hcj).1, hcreate.2⟩
  | unlock result =>
    obtain ⟨hres, hh⟩ := h6 i result hi (Or.inl hc)
    have hholder : (sys.callers i).holdsMutex = true := by rw [hc]; rfl
    subst hres
    simp only [step, hrun, Bool.false_eq_true, if_false, hc, Outcome.isPanic]
    have hupd : ∀ j, j < k →
        (Function.update sys.callers i (Caller.done (Outcome.returned none)) j).holdsMutex =
          false := by
      intro j hj
      by_cases hji : j = i
      · rw [hji, Function.update_same]
        rfl
      · rw [Function.update_noteq hji]
        cases hjh : (sys.callers j).holdsMutex with
        | false => rfl
        | true => exact absurd (h3 j i hj hi hjh hholder) hji
    refine ⟨rfl, ?_, ?_, h4, ?_, ?_⟩
    · dsimp only
      constructor
      · intro hf
        exact absurd hf (by decide)
      · rintro ⟨j, hj, hjh⟩
        rw [hupd j hj] at hjh
        exact absurd hjh (by decide)
    · intro a b ha hb hah
      dsimp only at hah
      rw [hupd a ha] at hah
      exact absurd hah (by decide)
    · intro j hj hcj
      dsimp only at hcj ⊢
      by_cases hji : j = i
      · rw [hji, Function.update_same] at hcj
        simp at hcj
      · rw [Function.update_noteq hji] at hcj
        exact h5 j hj hcj
    · intro j res hj hcj
      dsimp only at hcj ⊢
      by_cases hji : j = i
      · rw [hji, Function.update_same] at hcj
        rcases hcj with hcj | hcj
        · simp at hcj
        · simp only [Caller.done.injEq] at hcj
          exact ⟨hcj.symm, hh⟩
      · rw [Function.update_noteq hji] at hcj
        exact h6 j res hj hcj
  | done result =>
    simp only [step, hrun, Bool.false_eq_true, if_false, hc]
    exact hinv

theorem runSchedule_preserves_ConvergenceInv (fs : FileSystem) (request : Request) (k : Nat)
    (schedule : List Nat) (sys : System) (hw : walkReadable (fs.Walk ScriptRoodDir) = true)
    (h : ConvergenceInv request k sys) :
    ConvergenceInv request k (runSchedule fs request k schedule sys) := by
  induction schedule generalizing sys with
  | nil => exact h
  | cons i rest ih => exact ih _ (step_preserves_ConvergenceInv fs request k i sys hw h)

theorem ConvergenceInv_initial (request : Request) (k : Nat) (store : Store)
    (h : store.holds (toolsetKey request) = false) :
    ConvergenceInv request k (initialSystem store) := by
  refine ⟨rfl, ?_, ?_, Or.inl ⟨h, rfl⟩, ?_, ?_⟩
  · simp [initialSystem, Caller.holdsMutex]
  · intro i j _ _ hi
    simp [initialSystem, Caller.holdsMutex] at hi
  · intro i _ hc
    simp [initialSystem] at hc
  · intro i res _ hc
    simp [initialSystem] at hc

theorem Store.count_eq_zero_of_not_holds (s : Store) (key : NamespacedName)
    (h : s.holds key = false) : s.count key = 0 := by
  unfold Store.count
  rw [List.length_eq_zero, List.filter_eq_nil_iff]
  intro cm hcm
  simp only [Store.holds, List.any_eq_false, decide_eq_true_eq] at h
  simpa using h cm hcm

/-- A caller that can move gets closer to its end, and no other caller moves. -/
theorem step_makes_progress (fs : FileSystem) (request : Request) (k i : Nat) (sys : System)
    (h : canStep k i sys = true) :
    ((step fs request k i sys).callers i).stepsLeft < (sys.callers i).stepsLeft ∧
    ∀ j, j ≠ i → (step fs request k i sys).callers j = sys.callers j := by
  simp only [canStep, Bool.and_eq_true, Bool.not_eq_true', decide_eq_true_eq,
    Bool.and_eq_false_imp, beq_iff_eq] at h
  obtain ⟨⟨⟨hcr, hi⟩, hdone⟩, hlock⟩ := h
  have hrun : (sys.crashed || decide (k ≤ i)) = false := by
    simp [hcr, hi]
  have hupd : ∀ (c : Caller) (j : Nat), j ≠ i → Function.update sys.callers i c j = sys.callers j :=
    fun c j hj => Function.update_noteq hj c sys.callers
  cases hc : sys.callers i with
  | firstGet =>
    simp only [step, hrun, Bool.false_eq_true, if_false, hc]
    split <;> exact ⟨by simp [Caller.stepsLeft], hupd _⟩
  | lock =>
    have hm : sys.mutex = false := hlock hc
    simp only [step, hrun, Bool.false_eq_true, if_false, hc, hm]
    exact ⟨by simp [Caller.stepsLeft], hupd _⟩
  | secondGet =>
    simp only [step, hrun, Bool.false_eq_true, if_false, hc]
    split
    · exact ⟨by simp [Caller.stepsLeft], hupd _⟩
    · split <;> exact ⟨by simp [Caller.stepsLeft], hupd _⟩
  | walk =>
    simp only [step, hrun, Bool.false_eq_true, if_false, hc]
    split <;> exact ⟨by simp [Caller.stepsLeft], hupd _⟩
  | create data =>
    simp only [step, hrun, Bool.false_eq_true, if_false, hc]
    split
    · exact ⟨by simp [Caller.stepsLeft], hupd _⟩
    · split <;> exact ⟨by simp [Caller.stepsLeft], hupd _⟩
  | unlock result =>
    simp only [step, hrun, Bool.false_eq_true, if_false, hc]
    exact ⟨by simp [Caller.stepsLeft], hupd _⟩
  | done result =>
    rw [hc] at hdone
    simp [Caller.isDone] at hdone

/-- Under the invariant no schedule is stuck: while some caller has not ended, some
caller can move. -/
theorem ConvergenceInv_no_deadlock (request : Request) (k : Nat) (sys : System)
    (h : ConvergenceInv request k sys)
    (hopen : ∃ i, i < k ∧ (sys.callers i).isDone = false) :
    ∃ j, j < k ∧ canStep k j sys = true := by
  obtain ⟨h1, h2, -, -, -, -⟩ := h
  obtain ⟨i, hi, hnd⟩ := hopen
  by_cases hm : sys.mutex = true
  · obtain ⟨j, hj, hjh⟩ := h2.mp hm
    refine ⟨j, hj, ?_⟩
    cases hc : sys.callers j <;> rw [hc] at hjh <;>
      simp_all [canStep, Caller.isDone, Caller.holdsMutex]
  · refine ⟨i, hi, ?_⟩
    simp only [Bool.not_eq_true] at hm
    simp [canStep, h1, hi, hnd, hm]

/-- Convergence with a readable script directory: from the empty faithful store,
under every schedule of `k ≥ 1` callers, the process does not crash and at most one
create succeeds; once all callers have ended, exactly one create succeeded, all
returned nil and the store holds exactly one toolset config map; and while a caller
has not ended some caller can move. -/
theorem concurrent_callers_converge (fs : FileSystem) (request : Request) (k : Nat)
    (schedule : List Nat) (hw : walkReadable (fs.Walk ScriptRoodDir) = true) :
    (runSchedule fs request k schedule (initialSystem Store.empty)).crashed = false ∧
    (runSchedule fs request k schedule (initialSystem Store.empty)).created ≤ 1 ∧
    (1 ≤ k →
      (∀ i, i < k →
        ((runSchedule fs request k schedule (initialSystem Store.empty)).callers i).isDone =
          true) →
      (runSchedule fs request k schedule (initialSystem Store.empty)).created = 1 ∧
      (∀ i, i < k →
        (runSchedule fs request k schedule (initialSystem Store.empty)).callers i =
          .done (.returned none)) ∧
      (runSchedule fs request k schedule (initialSystem Store.empty)).store.count
        (toolsetKey request) = 1) ∧
    ((∃ i, i < k ∧
        ((runSchedule fs request k schedule (initialSystem Store.empty)).callers i).isDone =
          false) →
      ∃ j, j < k ∧
        canStep k j (runSchedule fs request k schedule (initialSystem Store.empty)) = true) := by
  have hinv := runSchedule_preserves_ConvergenceInv fs request k schedule
    (initialSystem Store.empty) hw (ConvergenceInv_initial request k Store.empty rfl)
  generalize runSchedule fs request k schedule (initialSystem Store.empty) = final at hinv
  refine ⟨hinv.1, ?_, ?_, ConvergenceInv_no_deadlock request k final hinv⟩
  · rcases hinv.2.2.2.1 with ⟨-, hz⟩ | ⟨-, ho⟩
    · rw [hz]
      exact Nat.zero_le 1
    · rw [ho]
  · intro hk hall
    have hres : ∀ i, i < k → final.callers i = .done (.returned none) ∧
        final.store.holds (toolsetKey request) = true := by
      intro i hi
      have hd := hall i hi
      cases hc : final.callers i with
      | done res =>
        obtain ⟨hr, hh⟩ := hinv.2.2.2.2.2 i res hi (Or.inr hc)
        rw [hr]
        exact ⟨rfl, hh⟩
      | firstGet => rw [hc] at hd; simp [Caller.isDone] at hd
      | lock => rw [hc] at hd; simp [Caller.isDone] at hd
      | secondGet => rw [hc] at hd; simp [Caller.isDone] at hd
      | walk => rw [hc] at hd; simp [Caller.isDone] at hd
      | create d => rw [hc] at hd; simp [Caller.isDone] at hd
      | unlock r => rw [hc] at hd; simp [Caller.isDone] at hd
    have hholds := (hres 0 (by omega)).2
    refine ⟨?_, fun i hi => (hres i hi).1, Store.count_eq_one_of_holds _ _ hholds⟩
    rcases hinv.2.2.2.1 with ⟨hf, -⟩ | ⟨-, ho⟩
    · rw [hholds] at hf
      exact absurd hf (by decide)
    · exact ho

/-- A single caller stepping through its call ends as the function
`CheckAndCreateConfigMap` does on the faithful store, with the same store. -/
theorem single_caller_agrees (fs : FileSystem) (request : Request) (s : Store) :
    (runSchedule fs request 1 [0, 0, 0, 0, 0, 0] (initialSystem s)).callers 0 =
      .done (CheckAndCreateConfigMap fs storeClient request s).outcome ∧
    (runSchedule fs request 1 [0, 0, 0, 0, 0, 0] (initialSystem s)).store =
      (CheckAndCreateConfigMap fs storeClient request s).state := by
  by_cases hh : s.holds (toolsetKey request) = true
  · have hget := Store.Get_fst_of_holds (toolsetKey request) s hh
    have hsnd := Store.Get_snd (toolsetKey request) s
    have hh' : s.holds ⟨request.Namespace, ToolSetName⟩ = true := hh
    rw [call_on_present fs request s hh']
    simp [runSchedule, step, initialSystem, storeClient, hget, hsnd]
  · simp only [Bool.not_eq_true] at hh
    have hget := Store.Get_fst_of_not_holds (toolsetKey request) s hh
    have hsnd := Store.Get_snd (toolsetKey request) s
    have hnf : IsNotFound (notFoundError (toolsetKey request)) = true := rfl
    have hget' : (Store.Get ⟨request.Namespace, ToolSetName⟩ s).1 =
        some (notFoundError (toolsetKey request)) := hget
    have hsnd' : (Store.Get ⟨request.Namespace, ToolSetName⟩ s).2 = s := hsnd
    by_cases hw : walkReadable (fs.Walk ScriptRoodDir) = true
    · have hwalk := walkAll_of_readable fs (fs.Walk ScriptRoodDir) [] hw
      have hcreate := Store.holds_after_create s
        ⟨request.Namespace, ToolSetName,
          buildData (walkedFiles fs (fs.Walk ScriptRoodDir)) []⟩ hh
      simp [runSchedule, step, initialSystem, storeClient, hget, hsnd, hnf, hwalk, hcreate.1,
        CheckAndCreateConfigMap, hget', hsnd', Outcome.isPanic]
    · simp only [Bool.not_eq_true] at hw
      have hwalk := walkAll_of_not_readable fs (fs.Walk ScriptRoodDir) [] hw
      simp [runSchedule, step, initialSystem, storeClient, hget, hsnd, hnf, hwalk,
        CheckAndCreateConfigMap, hget', hsnd', Outcome.isPanic]

/-! ## The default resolver -/

/-- C5, evaluated on the code: `GetDefault` returns the fallback for the zero of
type `int`, but for the zero of each of the eleven other numeric types it returns
the provided zero itself, whatever the fallback, because `p == 0` compares the
interface value with an `int`. -/
theorem GetDefault_zero_of_other_numeric_type (v : GoValue) :
    GetDefault (.int 0) v = v ∧
    GetDefault (.int8 0) v = .int8 0 ∧
    GetDefault (.int16 0) v = .int16 0 ∧
    GetDefault (.int32 0) v = .int32 0 ∧
    GetDefault (.int64 0) v = .int64 0 ∧
    GetDefault (.uint 0) v = .uint 0 ∧
    GetDefault (.uint8 0) v = .uint8 0 ∧
    GetDefault (.uint16 0) v = .uint16 0 ∧
    GetDefault (.uint32 0) v = .uint32 0 ∧
    GetDefault (.uint64 0) v = .uint64 0 ∧
    GetDefault (.float32 0) v = .float32 0 ∧
    GetDefault (.float64 0) v = .float64 0 ∧
    GetDefault (.int64 0) (.int 7) ≠ .int 7 := by
  refine ⟨rfl, rfl, rfl, rfl, rfl, rfl, rfl, rfl, rfl, rfl, rfl, rfl, ?_⟩
  decide

/-- C6: on every provided value that is a string, nil, or a non-zero number of a
numeric type, `GetDefault` agrees with the reference "fallback if zero value, else
provided": the result is the fallback `v`, verbatim and whatever its type, when
`p` is the empty string or nil, and `p` itself otherwise. -/
theorem GetDefault_agrees_with_reference (p v : GoValue)
    (h : stringNilOrNonZeroNumber p = true) :
    GetDefault p v = resolveSpec p v ∧
    GetDefault p v = (if p = .string "" ∨ p = .nil then v else p) := by
  cases p <;>
    simp_all [GetDefault, resolveSpec, stringNilOrNonZeroNumber, isString, isNumber, isZeroValue,
      ifaceEq, emptyStringConst, zeroConst]

/-- C6 at a concrete input: a non-zero `uint8` with a nil fallback. -/
theorem GetDefault_agrees_with_reference_witness :
    stringNilOrNonZeroNumber (.uint8 5) = true ∧
    GetDefault (.uint8 5) .nil = resolveSpec (.uint8 5) .nil ∧
    GetDefault (.uint8 5) .nil = (if GoValue.uint8 5 = .string "" ∨ GoValue.uint8 5 = .nil
      then .nil else .uint8 5) :=
  ⟨by decide, GetDefault_agrees_with_reference (.uint8 5) .nil (by decide)⟩

/-! ## The bootstrap of the toolset config map -/

/-- C1, evaluated on the code.  On the client's answers a call returns nil when
the first check succeeds, when the second check succeeds and when the second check
fails with another error than NotFound; when both checks fail, the second with
NotFound, and every walked entry has a file info, it issues the create and returns
the create's error unless that is nil or AlreadyExists.  But when some walked entry
has no file info the call panics and returns nothing: with the script directory
missing and reads answering NotFound, a rejected create does not come back as the
error, and on the empty faithful store, where the create would succeed, nil is not
returned. -/
theorem CheckAndCreateConfigMap_on_client_answers {σ : Type} (fs : FileSystem)
    (client : Client σ) (request : Request) (s : σ) :
    let key : NamespacedName := ⟨request.Namespace, ToolSetName⟩
    let r1 := client.Get key s
    let r2 := client.Get key r1.2
    let cm : ConfigMap :=
      ⟨request.Namespace, ToolSetName,
        buildData (walkedFiles fs (fs.Walk ScriptRoodDir)) []⟩
    let r3 := client.Create cm r2.2
    let r := CheckAndCreateConfigMap fs client request s
    (r1.1 = none →
      r.outcome = .returned none ∧ r.calls = [.get key none] ∧ r.state = r1.2) ∧
    (∀ e1, r1.1 = some e1 → r2.1 = none →
      r.outcome = .returned none ∧ r.calls = [.get key (some e1), .get key none] ∧
      r.state = r2.2) ∧
    (∀ e1 e2, r1.1 = some e1 → r2.1 = some e2 → IsNotFound e2 = false →
      r.outcome = .returned none ∧
      r.calls = [.get key (some e1), .get key (some e2)] ∧ r.state = r2.2) ∧
    (∀ e1 e2, r1.1 = some e1 → r2.1 = some e2 → IsNotFound e2 = true →
      walkReadable (fs.Walk ScriptRoodDir) = true →
      r.calls = [.get key (some e1), .get key (some e2), .create cm r3.1] ∧
      r.state = r3.2 ∧
      r.outcome = .returned
        (match r3.1 with
          | none => none
          | some e3 => if IsAlreadyExists e3 then none else some e3)) ∧
    (∀ e1 e2, r1.1 = some e1 → r2.1 = some e2 → IsNotFound e2 = true →
      walkReadable (fs.Walk ScriptRoodDir) = false →
      r.outcome = .panicked .nilDereference ∧
      r.calls = [.get key (some e1), .get key (some e2)] ∧ r.state = r2.2) ∧
    ((rejectingClient.Get exampleKey ()).1 = some (notFoundError exampleKey) ∧
      (rejectingClient.Create exampleConfigMap ()).1 = some ⟨.Other, "forbidden"⟩ ∧
      IsAlreadyExists ⟨.Other, "forbidden"⟩ = false ∧
      (CheckAndCreateConfigMap missingScriptDir rejectingClient exampleRequest ()).outcome =
        .panicked .nilDereference) ∧
    ((storeClient.Get exampleKey Store.empty).1 = some (notFoundError exampleKey) ∧
      (storeClient.Create ⟨"org1", "fabric-toolset", []⟩ Store.empty).1 = none ∧
      (CheckAndCreateConfigMap missingScriptDir storeClient exampleRequest
        Store.empty).outcome = .panicked .nilDereference) := by
  intro key r1 r2 cm r3 r
  have h := CheckAndCreateConfigMap_shape fs client request s
  dsimp only at h
  refine ⟨?_, ?_, ?_, ?_, ?_, ⟨rfl, rfl, rfl, rfl⟩, ⟨rfl, rfl, rfl⟩⟩
  · intro g1
    have g1' : (client.Get ⟨request.Namespace, ToolSetName⟩ s).1 = none := g1
    rcases h with ⟨h1, hr⟩ | ⟨e1, h1, h2, hr⟩ | ⟨e1, e2, h1, h2, hnf, hr⟩ |
      ⟨e1, e2, h1, h2, hnf, hw, hr⟩ | ⟨e1, e2, h1, h2, hnf, hw, h3, hr⟩ |
      ⟨e1, e2, e3, h1, h2, hnf, hw, h3, hae, hr⟩ |
      ⟨e1, e2, e3, h1, h2, hnf, hw, h3, hae, hr⟩
    · simp only [r, hr, key, r1, and_self]
    all_goals (rw [g1'] at h1; exact absurd h1 (by simp))
  · intro e1' g1 g2
    have g1' : (client.Get ⟨request.Namespace, ToolSetName⟩ s).1 = some e1' := g1
    have g2' : (client.Get ⟨request.Namespace, ToolSetName⟩
        (client.Get ⟨request.Namespace, ToolSetName⟩ s).2).1 = none := g2
    rcases h with ⟨h1, hr⟩ | ⟨e1, h1, h2, hr⟩ | ⟨e1, e2, h1, h2, hnf, hr⟩ |
      ⟨e1, e2, h1, h2, hnf, hw, hr⟩ | ⟨e1, e2, h1, h2, hnf, hw, h3, hr⟩ |
      ⟨e1, e2, e3, h1, h2, hnf, hw, h3, hae, hr⟩ |
      ⟨e1, e2, e3, h1, h2, hnf, hw, h3, hae, hr⟩
    · rw [g1'] at h1; exact absurd h1 (by simp)
    · rw [g1'] at h1
      simp only [Option.some.injEq] at h1
      subst h1
      simp only [r, hr, key, r1, r2, and_self]
    all_goals (rw [g2'] at h2; exact absurd h2 (by simp))
  · intro e1' e2' g1 g2 gnf
    have g1' : (client.Get ⟨request.Namespace, ToolSetName⟩ s).1 = some e1' := g1
    have g2' : (client.Get ⟨request.Namespace, ToolSetName⟩
        (client.Get ⟨request.Namespace, ToolSetName⟩ s).2).1 = some e2' := g2
    rcases h with ⟨h1, hr⟩ | ⟨e1, h1, h2, hr⟩ | ⟨e1, e2, h1, h2, hnf, hr⟩ |
      ⟨e1, e2, h1, h2, hnf, hw, hr⟩ | ⟨e1, e2, h1, h2, hnf, hw, h3, hr⟩ |
      ⟨e1, e2, e3, h1, h2, hnf, hw, h3, hae, hr⟩ |
      ⟨e1, e2, e3, h1, h2, hnf, hw, h3, hae, hr⟩
    · rw [g1'] at h1; exact absurd h1 (by simp)
    · rw [g2'] at h2; exact absurd h2 (by simp)
    · rw [g1'] at h1
      rw [g2'] at h2
      simp only [Option.some.injEq] at h1 h2
      subst h1 h2
      simp only [r, hr, key, r1, r2, and_self]
    all_goals
      (rw [g2'] at h2
       simp only [Option.some.injEq] at h2
       subst h2
       rw [gnf] at hnf
       exact absurd hnf (by decide))
  · intro e1' e2' g1 g2 gnf gw
    have g1' : (client.Get ⟨request.Namespace, ToolSetName⟩ s).1 = some e1' := g1
    have g2' : (client.Get ⟨request.Namespace, ToolSetName⟩
        (client.Get ⟨request.Namespace, ToolSetName⟩ s).2).1 = some e2' := g2
    rcases h with ⟨h1, hr⟩ | ⟨e1, h1, h2, hr⟩ | ⟨e1, e2, h1, h2, hnf, hr⟩ |
      ⟨e1, e2, h1, h2, hnf, hw, hr⟩ | ⟨e1, e2, h1, h2, hnf, hw, h3, hr⟩ |
      ⟨e1, e2, e3, h1, h2, hnf, hw, h3, hae, hr⟩ |
      ⟨e1, e2, e3, h1, h2, hnf, hw, h3, hae, hr⟩
    · rw [g1'] at h1; exact absurd h1 (by simp)
    · rw [g2'] at h2; exact absurd h2 (by simp)
    · rw [g2'] at h2
      simp only [Option.some.injEq] at h2
      subst h2
      rw [gnf] at hnf
      exact absurd hnf (by decide)
    · rw [gw] at hw
      exact absurd hw (by decide)
    · rw [g1'] at h1
      rw [g2'] at h2
      simp only [Option.some.injEq] at h1 h2
      subst h1 h2
      simp only [r, hr, key, r1, r2, r3, cm, h3, and_self]
    · rw [g1'] at h1
      rw [g2'] at h2
      simp only [Option.some.injEq] at h1 h2
      subst h1 h2
      simp only [r, hr, key, r1, r2, r3, cm, h3, hae, if_true, and_self]
    · rw [g1'] at h1
      rw [g2'] at h2
      simp only [Option.some.injEq] at h1 h2
      subst h1 h2
      simp only [r, hr, key, r1, r2, r3, cm, h3, hae, Bool.false_eq_true, if_false, and_self]
  · intro e1' e2' g1 g2 gnf gw
    have g1' : (client.Get ⟨request.Namespace, ToolSetName⟩ s).1 = some e1' := g1
    have g2' : (client.Get ⟨request.Namespace, ToolSetName⟩
        (client.Get ⟨request.Namespace, ToolSetName⟩ s).2).1 = some e2' := g2
    rcases h with ⟨h1, hr⟩ | ⟨e1, h1, h2, hr⟩ | ⟨e1, e2, h1, h2, hnf, hr⟩ |
      ⟨e1, e2, h1, h2, hnf, hw, hr⟩ | ⟨e1, e2, h1, h2, hnf, hw, h3, hr⟩ |
      ⟨e1, e2, e3, h1, h2, hnf, hw, h3, hae, hr⟩ |
      ⟨e1, e2, e3, h1, h2, hnf, hw, h3, hae, hr⟩
    · rw [g1'] at h1; exact absurd h1 (by simp)
    · rw [g2'] at h2; exact absurd h2 (by simp)
    · rw [g2'] at h2
      simp only [Option.some.injEq] at h2
      subst h2
      rw [gnf] at hnf
      exact absurd hnf (by decide)
    · rw [g1'] at h1
      rw [g2'] at h2
      simp only [Option.some.injEq] at h1 h2
      subst h1 h2
      simp only [r, hr, key, r1, r2, and_self]
    all_goals (rw [gw] at hw; exact absurd hw (by decide))

/-- C2, evaluated on the code: on an empty faithful store both existence checks
fail with NotFound, but with the script directory missing the walk callback
dereferences the nil file info; the call panics and never issues a create. -/
theorem missing_script_dir_issues_no_create :
    (CheckAndCreateConfigMap missingScriptDir storeClient exampleRequest Store.empty).calls =
      [.get exampleKey (some (notFoundError exampleKey)),
       .get exampleKey (some (notFoundError exampleKey))] ∧
    IsNotFound (notFoundError exampleKey) = true ∧
    createCount
      (CheckAndCreateConfigMap missingScriptDir storeClient exampleRequest Store.empty).calls = 0 ∧
    (CheckAndCreateConfigMap missingScriptDir storeClient exampleRequest Store.empty).outcome =
      .panicked .nilDereference := by
  refine ⟨rfl, rfl, rfl, rfl⟩

/-- C3: on a faithful store and with a readable script directory, `n ≥ 1`
sequential calls for one namespace all return nil; after the first call the store
holds exactly one toolset config map of that namespace, and every later call only
makes the first existence check (no create) and leaves the store as the first
call left it. -/
theorem sequential_idempotence (fs : FileSystem) (request : Request) (s0 : Store) (n : Nat)
    (hn : 1 ≤ n) (hw : walkReadable (fs.Walk ScriptRoodDir) = true) :
    ∃ first : Exec Store,
      first = CheckAndCreateConfigMap fs storeClient request s0 ∧
      callSequence fs storeClient request n s0 =
        first :: List.replicate (n - 1)
          ⟨.returned none, [.get ⟨request.Namespace, ToolSetName⟩ none], first.state⟩ ∧
      (callSequence fs storeClient request n s0).length = n ∧
      first.outcome = .returned none ∧
      createCount first.calls ≤ 1 ∧
      first.state.count ⟨request.Namespace, ToolSetName⟩ = 1 ∧
      ∀ r ∈ callSequence fs storeClient request n s0,
        r.outcome = .returned none ∧ r.state.count ⟨request.Namespace, ToolSetName⟩ = 1 := by
  obtain ⟨k, rfl⟩ : ∃ k, n = k + 1 := ⟨n - 1, by omega⟩
  have key :
      (CheckAndCreateConfigMap fs storeClient request s0).outcome = .returned none ∧
      (CheckAndCreateConfigMap fs storeClient request s0).state.holds
        ⟨request.Namespace, ToolSetName⟩ = true := by
    cases hs : s0.holds ⟨request.Namespace, ToolSetName⟩ with
    | true => rw [call_on_present fs request s0 hs]; exact ⟨rfl, hs⟩
    | false => exact ⟨(call_on_absent fs request s0 hs hw).1, (call_on_absent fs request s0 hs hw).2.1⟩
  obtain ⟨hout, hholds⟩ := key
  have hseq : callSequence fs storeClient request (k + 1) s0 =
      CheckAndCreateConfigMap fs storeClient request s0 ::
        List.replicate k
          ⟨.returned none, [.get ⟨request.Namespace, ToolSetName⟩ none],
            (CheckAndCreateConfigMap fs storeClient request s0).state⟩ := by
    simp only [callSequence, hout]
    rw [callSequence_on_present fs request _ k hholds]
  have hcount := Store.count_eq_one_of_holds _ _ hholds
  refine ⟨_, rfl, ?_, ?_, hout, (create_issued_iff fs storeClient request s0).1, hcount, ?_⟩
  · rw [hseq]
    simp
  · rw [hseq]
    simp
  · intro r hr
    rw [hseq] at hr
    simp only [List.mem_cons, List.mem_replicate] at hr
    rcases hr with rfl | ⟨-, rfl⟩
    · exact ⟨hout, hcount⟩
    · exact ⟨rfl, hcount⟩

/-- C3 at a concrete input: three calls on the empty store with the example script
directory. -/
theorem sequential_idempotence_witness :
    ∃ first : Exec Store,
      first = CheckAndCreateConfigMap exampleScripts storeClient exampleRequest Store.empty ∧
      callSequence exampleScripts storeClient exampleRequest 3 Store.empty =
        first :: List.replicate (3 - 1)
          ⟨.returned none, [.get ⟨exampleRequest.Namespace, ToolSetName⟩ none], first.state⟩ ∧
      (callSequence exampleScripts storeClient exampleRequest 3 Store.empty).length = 3 ∧
      first.outcome = .returned none ∧
      createCount first.calls ≤ 1 ∧
      first.state.count ⟨exampleRequest.Namespace, ToolSetName⟩ = 1 ∧
      ∀ r ∈ callSequence exampleScripts storeClient exampleRequest 3 Store.empty,
        r.outcome = .returned none ∧
        r.state.count ⟨exampleRequest.Namespace, ToolSetName⟩ = 1 :=
  sequential_idempotence exampleScripts exampleRequest Store.empty 3 (by decide) rfl

/-- C9, evaluated on the code: with the script directory missing, from the empty
faithful store and under every schedule of any number of concurrent callers, no
create succeeds, the store never holds the toolset config map and no caller returns
nil.  For two callers, once the first one has run its five steps it has panicked in
the walk and ended the process, and the second one never leaves its start. -/
theorem concurrent_callers_with_missing_script_dir (request : Request) (k : Nat)
    (schedule : List Nat) :
    (runSchedule missingScriptDir request k schedule (initialSystem Store.empty)).created = 0 ∧
    (runSchedule missingScriptDir request k schedule (initialSystem Store.empty)).store.count
      (toolsetKey request) = 0 ∧
    (∀ i, (runSchedule missingScriptDir request k schedule (initialSystem Store.empty)).callers i ≠
      .done (.returned none)) ∧
    (runSchedule missingScriptDir exampleRequest 2 [0, 0, 0, 0, 0, 1, 1]
      (initialSystem Store.empty)).crashed = true ∧
    (runSchedule missingScriptDir exampleRequest 2 [0, 0, 0, 0, 0, 1, 1]
      (initialSystem Store.empty)).callers 0 = .done (.panicked .nilDereference) ∧
    (runSchedule missingScriptDir exampleRequest 2 [0, 0, 0, 0, 0, 1, 1]
      (initialSystem Store.empty)).callers 1 = .firstGet := by
  have hinit : FaultInv request (initialSystem Store.empty) :=
    ⟨rfl, rfl, fun _ => Or.inl rfl⟩
  have hinv := runSchedule_preserves_FaultInv missingScriptDir request k schedule
    (initialSystem Store.empty) rfl hinit
  refine ⟨hinv.2.1, Store.count_eq_zero_of_not_holds _ _ hinv.1, ?_, ?_, ?_, ?_⟩
  · intro i hi
    rcases hinv.2.2 i with h | h | h | h | h | h <;> rw [h] at hi <;> simp at hi
  · decide
  · decide
  · decide

/-- C4 as stated fails: with a file `a` in the script directory and another file
`a` in its subdirectory `c`, the walk finds two non-directory files but the config
map passed to create has the single entry `a`, so not every created config map
has one entry per file. -/
theorem one_entry_per_file_fails :
    ¬ ∀ (cm : ConfigMap) (resp : Option StoreError),
      Call.create cm resp ∈
        (CheckAndCreateConfigMap collidingScripts storeClient exampleRequest Store.empty).calls →
      oneEntryPerFile collidingScripts cm := by
  intro h
  have hmem : Call.create ⟨"org1", "fabric-toolset", [("a", "y")]⟩ none ∈
      (CheckAndCreateConfigMap collidingScripts storeClient exampleRequest Store.empty).calls := by
    have hc : (CheckAndCreateConfigMap collidingScripts storeClient exampleRequest
        Store.empty).calls =
        [.get exampleKey (some (notFoundError exampleKey)),
         .get exampleKey (some (notFoundError exampleKey)),
         .create ⟨"org1", "fabric-toolset", [("a", "y")]⟩ none] := by
      decide
    rw [hc]
    simp
  have hp := (h _ _ hmem).length_eq
  have hl : (walkedFiles collidingScripts (collidingScripts.Walk ScriptRoodDir)).length = 2 := by
    decide
  rw [hl] at hp
  simp at hp

/-- C4, amended: the config map passed to create has the request's namespace and
the name `ToolSetName`; every walked entry carried a file info; its entries have
pairwise distinct keys, which are exactly the base names of the walked
non-directory files; each key maps to the content, as read (empty when the read
fails), of the last walked file with that base name; and when the base names are
pairwise distinct the entries are exactly the walked files, one entry per file. -/
theorem created_configmap_content {σ : Type} (fs : FileSystem) (client : Client σ)
    (request : Request) (s : σ) (cm : ConfigMap) (resp : Option StoreError)
    (h : Call.create cm resp ∈ (CheckAndCreateConfigMap fs client request s).calls) :
    walkReadable (fs.Walk ScriptRoodDir) = true ∧
    cm.Namespace = request.Namespace ∧ cm.Name = ToolSetName ∧
    (cm.Data.map Prod.fst).Nodup ∧
    (∀ k, k ∈ cm.Data.map Prod.fst ↔
      k ∈ (walkedFiles fs (fs.Walk ScriptRoodDir)).map Prod.fst) ∧
    (∀ k, StringMap.get cm.Data k = lastContent (walkedFiles fs (fs.Walk ScriptRoodDir)) k) ∧
    (((walkedFiles fs (fs.Walk ScriptRoodDir)).map Prod.fst).Nodup →
      cm.Data = walkedFiles fs (fs.Walk ScriptRoodDir)) := by
  have hcm : walkReadable (fs.Walk ScriptRoodDir) = true ∧
      cm = ⟨request.Namespace, ToolSetName,
        buildData (walkedFiles fs (fs.Walk ScriptRoodDir)) []⟩ := by
    have hs := CheckAndCreateConfigMap_shape fs client request s
    dsimp only at hs
    rcases hs with ⟨h1, hr⟩ | ⟨e1, h1, h2, hr⟩ | ⟨e1, e2, h1, h2, hnf, hr⟩ |
      ⟨e1, e2, h1, h2, hnf, hw, hr⟩ | ⟨e1, e2, h1, h2, hnf, hw, h3, hr⟩ |
      ⟨e1, e2, e3, h1, h2, hnf, hw, h3, hae, hr⟩ |
      ⟨e1, e2, e3, h1, h2, hnf, hw, h3, hae, hr⟩ <;>
    · rw [hr] at h
      simp at h <;> exact ⟨hw, h.1⟩
  obtain ⟨hw, rfl⟩ := hcm
  refine ⟨hw, rfl, rfl, ?_, ?_, ?_, ?_⟩
  · exact buildData_nodup_keys _ [] (by simp)
  · intro k
    rw [buildData_mem_keys]
    simp
  · intro k
    rw [buildData_get]
    cases lastContent (walkedFiles fs (fs.Walk ScriptRoodDir)) k <;> simp [StringMap.get]
  · intro hn
    have := buildData_of_distinct (walkedFiles fs (fs.Walk ScriptRoodDir)) [] hn (by simp)
    simpa using this

/-- C4 at the specification's example: files `a` and `b` with contents `x` and
`y` and a subdirectory `c` give a create of the entries `a: x`, `b: y`. -/
theorem created_configmap_content_witness :
    Call.create exampleConfigMap none ∈
      (CheckAndCreateConfigMap exampleScripts storeClient exampleRequest Store.empty).calls ∧
    (walkReadable (exampleScripts.Walk ScriptRoodDir) = true ∧
    exampleConfigMap.Namespace = exampleRequest.Namespace ∧
    exampleConfigMap.Name = ToolSetName ∧
    (exampleConfigMap.Data.map Prod.fst).Nodup ∧
    (∀ k, k ∈ exampleConfigMap.Data.map Prod.fst ↔
      k ∈ (walkedFiles exampleScripts (exampleScripts.Walk ScriptRoodDir)).map Prod.fst) ∧
    (∀ k, StringMap.get exampleConfigMap.Data k =
      lastContent (walkedFiles exampleScripts (exampleScripts.Walk ScriptRoodDir)) k) ∧
    (((walkedFiles exampleScripts (exampleScripts.Walk ScriptRoodDir)).map Prod.fst).Nodup →
      exampleConfigMap.Data = walkedFiles exampleScripts (exampleScripts.Walk ScriptRoodDir))) :=
  ⟨by decide,
    created_configmap_content exampleScripts storeClient exampleRequest Store.empty
      exampleConfigMap none (by decide)⟩

/-- C10, evaluated on the code: whenever the walk hands the callback an entry
without file info, the callback dereferences the nil info and faults.  With the
script root missing the walk faults at once; with an entry that cannot be stat'ed
after a readable file the call of `CheckAndCreateConfigMap` panics, no create is
issued and the store stays empty. -/
theorem walk_callback_faults_without_file_info (fs : FileSystem) (data : StringMap)
    (path : String) (err : Option String) :
    walkFn fs data ⟨path, none, err⟩ = .error .nilDereference ∧
    walkAll missingScriptDir (missingScriptDir.Walk ScriptRoodDir) [] =
      .error .nilDereference ∧
    walkAll vanishingEntry (vanishingEntry.Walk ScriptRoodDir) [] = .error .nilDereference ∧
    (CheckAndCreateConfigMap vanishingEntry storeClient exampleRequest Store.empty).outcome =
      .panicked .nilDereference ∧
    createCount
      (CheckAndCreateConfigMap vanishingEntry storeClient exampleRequest Store.empty).calls = 0 ∧
    (CheckAndCreateConfigMap vanishingEntry storeClient exampleRequest
      Store.empty).state.configMaps = [] := by
  refine ⟨rfl, rfl, ?_, ?_, ?_, ?_⟩
  · exact walkAll_of_not_readable vanishingEntry _ [] (by decide)
  · decide
  · decide
  · decide

/-! ## Node addresses -/

/-- C7: when the store lists the nodes successfully, `GetNodeIPaddress` returns no
error and the concatenation, in listing order and in each node's address order, of
the addresses of exactly the entries of type ExternalIP: every returned string is
the address of such an entry, every such entry contributes once, and the result is
empty when no node has an external address. -/
theorem GetNodeIPaddress_external {σ : Type} (c : Client σ) (s s' : σ) (nodes : List Node)
    (h : c.List s = (.ok nodes, s')) :
    GetNodeIPaddress c s = ((externalAddresses nodes, none), s') ∧
    (∀ x, x ∈ externalAddresses nodes ↔
      ∃ node ∈ nodes, ∃ a ∈ node.Addresses, a.Typ = NodeExternalIP ∧ a.Address = x) ∧
    (externalAddresses nodes).length =
      (nodes.map fun node => node.Addresses.countP fun a => a.Typ = NodeExternalIP).sum ∧
    ((∀ node ∈ nodes, ∀ a ∈ node.Addresses, a.Typ ≠ NodeExternalIP) →
      GetNodeIPaddress c s = (([], none), s')) := by
  have hmain : GetNodeIPaddress c s = ((externalAddresses nodes, none), s') := by
    simp [GetNodeIPaddress, h, foldl_appendExternal]
  refine ⟨hmain, mem_externalAddresses nodes, length_externalAddresses nodes, ?_⟩
  · intro hnone
    rw [hmain]
    have : externalAddresses nodes = [] := by
      simp only [externalAddresses, List.flatten_eq_nil_iff, List.mem_map]
      rintro l ⟨node, hnode, rfl⟩
      simp only [List.map_eq_nil_iff, List.filter_eq_nil_iff, decide_eq_true_eq]
      exact fun a ha => hnone node hnode a ha
    rw [this]

/-- C7 at a concrete input: two nodes with mixed address entries listed by a
faithful store. -/
theorem GetNodeIPaddress_external_witness :
    GetNodeIPaddress storeClient (nodeStore exampleNodes) =
      ((externalAddresses exampleNodes, none), nodeStore exampleNodes) ∧
    (∀ x, x ∈ externalAddresses exampleNodes ↔
      ∃ node ∈ exampleNodes, ∃ a ∈ node.Addresses, a.Typ = NodeExternalIP ∧ a.Address = x) ∧
    (externalAddresses exampleNodes).length =
      (exampleNodes.map fun node =>
        node.Addresses.countP fun a => a.Typ = NodeExternalIP).sum ∧
    ((∀ node ∈ exampleNodes, ∀ a ∈ node.Addresses, a.Typ ≠ NodeExternalIP) →
      GetNodeIPaddress storeClient (nodeStore exampleNodes) =
        (([], none), nodeStore exampleNodes)) :=
  GetNodeIPaddress_external storeClient (nodeStore exampleNodes) (nodeStore exampleNodes)
    exampleNodes rfl

/-! ## Template loading -/

/-- C8: `GetObjectFromTemplate` returns exactly the decoder's result on the bytes
read from `TemplateRootDir ++ templateName`, with no bytes in place of a failed
read; it returns an error exactly when the decoder rejects those bytes, and a
missing file gives the result of decoding the empty input. -/
theorem GetObjectFromTemplate_decodes {Obj GVK Err : Type} (fs : FileSystem)
    (decode : String → DecodeResult Obj GVK Err) (templateName : String) :
    GetObjectFromTemplate fs decode templateName =
      decode ((fs.ReadFile (TemplateRootDir ++ templateName)).getD "") ∧
    ((GetObjectFromTemplate fs decode templateName).err.isSome = true ↔
      (decode ((fs.ReadFile (TemplateRootDir ++ templateName)).getD "")).err.isSome = true) ∧
    (fs.ReadFile (TemplateRootDir ++ templateName) = none →
      GetObjectFromTemplate fs decode templateName = decode "") := by
  have hmain : GetObjectFromTemplate fs decode templateName =
      decode ((fs.ReadFile (TemplateRootDir ++ templateName)).getD "") := by
    unfold GetObjectFromTemplate
    cases fs.ReadFile (TemplateRootDir ++ templateName) <;> rfl
  refine ⟨hmain, by rw [hmain], ?_⟩
  intro hnone
  rw [hmain, hnone]
  rfl

/-- C8 at a concrete input: the template file is missing, so the result is the
decoder's verdict on the empty input, here its decode error. -/
theorem GetObjectFromTemplate_decodes_witness :
    GetObjectFromTemplate missingScriptDir podDecoder "peer.yaml" = podDecoder "" ∧
    (GetObjectFromTemplate missingScriptDir podDecoder "peer.yaml").err =
      some "couldn't get version/kind" :=
  have h := (GetObjectFromTemplate_decodes missingScriptDir podDecoder "peer.yaml").2.2 rfl
  ⟨h, by rw [h]; decide⟩

end Fabric
